import Mathlib

/-!
Verification of the PSP34 NFT registry (`lib.rs`, `psp34_standard.rs`,
`traits.rs`) against its natural-language specification.

The Rust sources are shallowly embedded: machine integers become `Nat`
with explicit checked-arithmetic bounds, `ink::storage::Mapping` becomes
an association list, fallible functions return `Except`, and `&mut self`
methods become explicit state passing `State → Except ε Unit × State`.
Parts of the repository that are not in `src/` (`data.rs`, `metadata.rs`,
`errors.rs`, `ownable.rs`, and the ink! message-dispatch layer) are
modelled from the specification; each such definition carries a doc
comment starting with `Modelled from the spec:`.
-/

set_option maxRecDepth 10000
set_option linter.unusedVariables false

namespace PSP34

/-- The PSP34 token `Id` type. Modelled from the spec: "a tagged union over
integer widths (8/16/32/64/128-bit) and an arbitrary byte string"
(`data.rs` is not in `src/`). Integer payloads are `Nat`; byte strings are
lists of byte values. -/
inductive Id where
  | U8 : Nat → Id
  | U16 : Nat → Id
  | U32 : Nat → Id
  | U64 : Nat → Id
  | U128 : Nat → Id
  | Bytes : List Nat → Id
deriving DecidableEq, Repr

/-- Modelled from the spec: account identifiers are opaque; we model them
as natural numbers. -/
abbrev AccountId : Type := Nat

/-- Modelled from the spec (§7): the PSP34-level error kinds
(`errors.rs` is not in `src/`; variant names follow the spec and the
doc comments in `traits.rs`). -/
inductive PSP34Error where
  | Custom : String → PSP34Error
  | TokenExists
  | TokenNotExists
  | NotApproved
  | SelfApprove
  | NotOwner
  | SafeTransferCheckFailed
deriving DecidableEq, Repr

/-- Modelled from the spec: the ownable helper error
(`errors.rs` is not in `src/`). -/
inductive OwnableError where
  | CallerIsNotOwner
deriving DecidableEq, Repr

/-- Modelled from the spec (§7): the contract-level error type
(`errors.rs` is not in `src/`). `InvalidInput` and `Custom` appear
literally in `psp34_standard.rs`; PSP34 and ownable errors embed. -/
inductive Error where
  | Custom : String → Error
  | InvalidInput
  | OwnableError : OwnableError → Error
  | PSP34 : PSP34Error → Error
deriving DecidableEq, Repr

instance [DecidableEq ε] [DecidableEq α] : DecidableEq (Except ε α) := fun a b =>
  match a, b with
  | .ok x, .ok y =>
    if h : x = y then .isTrue (by rw [h]) else .isFalse (by intro hc; cases hc; exact h rfl)
  | .error x, .error y =>
    if h : x = y then .isTrue (by rw [h]) else .isFalse (by intro hc; cases hc; exact h rfl)
  | .ok _, .error _ => .isFalse (by intro hc; cases hc)
  | .error _, .ok _ => .isFalse (by intro hc; cases hc)

/-- Association-list model of `ink::storage::Mapping`: `insert` removes
the previous binding first, so keys are unique by construction. -/
abbrev AMap (α β : Type) : Type := List (α × β)

def AMap.get [DecidableEq α] : AMap α β → α → Option β
  | [], _ => none
  | (k, v) :: t, k' => if k' = k then some v else AMap.get t k'

def AMap.remove [DecidableEq α] (m : AMap α β) (k : α) : AMap α β :=
  m.filter (fun p => decide (p.1 ≠ k))

def AMap.insert [DecidableEq α] (m : AMap α β) (k : α) (v : β) : AMap α β :=
  (k, v) :: m.remove k

/-- Largest value of a Rust `u32`. -/
def U32MAX : Nat := 2 ^ 32 - 1

/-- Largest value of a Rust `u64`. -/
def U64MAX : Nat := 2 ^ 64 - 1

/-- Largest value of a Rust `u128`. -/
def U128MAX : Nat := 2 ^ 128 - 1

/-- Rust `checked_add` on an unsigned integer type with maximum `bound`. -/
def checkedAdd (bound x y : Nat) : Option Nat :=
  if x + y ≤ bound then some (x + y) else none

/-- Rust `checked_sub` on an unsigned integer type. -/
def checkedSub (x y : Nat) : Option Nat :=
  if y ≤ x then some (x - y) else none

/-- UTF-8 encoding of one unicode scalar value (model of Rust
`String::into_bytes` at the level of a single `char`). -/
def utf8EncodeChar (c : Char) : List Nat :=
  let n := c.toNat
  if n < 0x80 then [n]
  else if n < 0x800 then [0xC0 + n / 0x40, 0x80 + n % 0x40]
  else if n < 0x10000 then
    [0xE0 + n / 0x1000, 0x80 + (n / 0x40) % 0x40, 0x80 + n % 0x40]
  else
    [0xF0 + n / 0x40000, 0x80 + (n / 0x1000) % 0x40, 0x80 + (n / 0x40) % 0x40,
      0x80 + n % 0x40]

/-- Model of Rust `String::into_bytes`: the UTF-8 byte sequence of a
string. -/
def strToBytes (s : String) : List Nat :=
  (s.data.map utf8EncodeChar).flatten

/-- Strict UTF-8 decoding of one scalar value from a byte list, following
the validation Rust `String::from_utf8` performs: continuation bytes must
be in `[0x80, 0xC0)`; overlong encodings, surrogates and values above
`0x10FFFF` are rejected. Returns the decoded character and the remaining
bytes. -/
def utf8DecodeChar? : List Nat → Option (Char × List Nat)
  | [] => none
  | b0 :: t0 =>
    if b0 < 0x80 then some (Char.ofNat b0, t0)
    else if b0 < 0xC2 then none
    else if b0 < 0xE0 then
      match t0 with
      | b1 :: t1 =>
        if 0x80 ≤ b1 ∧ b1 < 0xC0 then
          some (Char.ofNat ((b0 - 0xC0) * 0x40 + (b1 - 0x80)), t1)
        else none
      | [] => none
    else if b0 < 0xF0 then
      match t0 with
      | b1 :: b2 :: t2 =>
        if 0x80 ≤ b1 ∧ b1 < 0xC0 ∧ 0x80 ≤ b2 ∧ b2 < 0xC0 ∧
            0x800 ≤ (b0 - 0xE0) * 0x1000 + (b1 - 0x80) * 0x40 + (b2 - 0x80) ∧
            Nat.isValidChar ((b0 - 0xE0) * 0x1000 + (b1 - 0x80) * 0x40 + (b2 - 0x80)) then
          some (Char.ofNat ((b0 - 0xE0) * 0x1000 + (b1 - 0x80) * 0x40 + (b2 - 0x80)), t2)
        else none
      | _ => none
    else if b0 < 0xF5 then
      match t0 with
      | b1 :: b2 :: b3 :: t3 =>
        if 0x80 ≤ b1 ∧ b1 < 0xC0 ∧ 0x80 ≤ b2 ∧ b2 < 0xC0 ∧ 0x80 ≤ b3 ∧ b3 < 0xC0 ∧
            0x10000 ≤ (b0 - 0xF0) * 0x40000 + (b1 - 0x80) * 0x1000 +
              (b2 - 0x80) * 0x40 + (b3 - 0x80) ∧
            (b0 - 0xF0) * 0x40000 + (b1 - 0x80) * 0x1000 +
              (b2 - 0x80) * 0x40 + (b3 - 0x80) < 0x110000 then
          some (Char.ofNat ((b0 - 0xF0) * 0x40000 + (b1 - 0x80) * 0x1000 +
            (b2 - 0x80) * 0x40 + (b3 - 0x80)), t3)
        else none
      | _ => none
    else none

theorem utf8DecodeChar?_shrinks :
    ∀ (l : List Nat) (c : Char) (r : List Nat),
      utf8DecodeChar? l = some (c, r) → r.length < l.length := by
  intro l c r h
  match l with
  | [] => simp [utf8DecodeChar?] at h
  | b0 :: t0 =>
    simp only [utf8DecodeChar?] at h
    split at h
    · cases h; simp
    · split at h
      · cases h
      · split at h
        · match t0 with
          | [] => cases h
          | b1 :: t1 =>
            simp only at h
            split at h
            · cases h; simp; omega
            · cases h
        · split at h
          · match t0 with
            | [] => cases h
            | [b1] => cases h
            | b1 :: b2 :: t2 =>
              simp only at h
              split at h
              · cases h; simp; omega
              · cases h
          · split at h
            · match t0 with
              | [] => cases h
              | [b1] => cases h
              | [b1, b2] => cases h
              | b1 :: b2 :: b3 :: t3 =>
                simp only at h
                split at h
                · cases h; simp; omega
                · cases h
            · cases h

/-- Strict UTF-8 decoding of a whole byte list into a character list,
with explicit fuel so the recursion is structural (each step consumes at
least one byte, so fuel equal to the byte count suffices). -/
def utf8DecodeListFuel : Nat → List Nat → Option (List Char)
  | _, [] => some []
  | 0, _ :: _ => none
  | fuel + 1, b0 :: t0 =>
    match utf8DecodeChar? (b0 :: t0) with
    | none => none
    | some (c, r) =>
      match utf8DecodeListFuel fuel r with
      | some cs => some (c :: cs)
      | none => none

/-- Strict UTF-8 decoding of a whole byte list into a character list. -/
def utf8DecodeList? (l : List Nat) : Option (List Char) :=
  utf8DecodeListFuel l.length l

/-- Model of Rust `String::from_utf8`: succeeds exactly on valid UTF-8. -/
def utf8Decode? (l : List Nat) : Option String :=
  match utf8DecodeList? l with
  | some cs => some (String.mk cs)
  | none => none

theorem charOfNat_toNat (c : Char) : Char.ofNat c.toNat = c := by
  have h : Nat.isValidChar c.toNat := c.valid
  unfold Char.ofNat
  rw [dif_pos h]
  rcases c with ⟨⟨⟨n, hn⟩⟩, hv⟩
  rfl

/-- Decoding inverts encoding at the level of one character: the UTF-8
bytes of a scalar value followed by arbitrary bytes decode to exactly
that scalar value with the arbitrary bytes left over. -/
theorem utf8DecodeChar?_encodeChar (c : Char) (rest : List Nat) :
    utf8DecodeChar? (utf8EncodeChar c ++ rest) = some (c, rest) := by
  have hv : Nat.isValidChar c.toNat := c.valid
  have hofn : Char.ofNat c.toNat = c := charOfNat_toNat c
  set n := c.toNat with hn
  by_cases ha : n < 0x80
  · simp only [utf8EncodeChar, ← hn, if_pos ha, List.cons_append, List.nil_append,
      utf8DecodeChar?, if_pos ha, hofn]
  · by_cases hb : n < 0x800
    · have d1 : ¬ (0xC0 + n / 0x40 < 0x80) := by omega
      have d2 : ¬ (0xC0 + n / 0x40 < 0xC2) := by omega
      have d3 : 0xC0 + n / 0x40 < 0xE0 := by omega
      have d4 : 0x80 ≤ 0x80 + n % 0x40 ∧ 0x80 + n % 0x40 < 0xC0 := by omega
      have dn : (0xC0 + n / 0x40 - 0xC0) * 0x40 + (0x80 + n % 0x40 - 0x80) = n := by omega
      simp only [utf8EncodeChar, ← hn, if_neg ha, if_pos hb, List.cons_append, List.nil_append,
        utf8DecodeChar?, if_neg d1, if_neg d2, if_pos d3, if_pos d4, dn, hofn]
    · by_cases hc : n < 0x10000
      · have d1 : ¬ (0xE0 + n / 0x1000 < 0x80) := by omega
        have d2 : ¬ (0xE0 + n / 0x1000 < 0xC2) := by omega
        have d3 : ¬ (0xE0 + n / 0x1000 < 0xE0) := by omega
        have d4 : 0xE0 + n / 0x1000 < 0xF0 := by omega
        have dcp : (0xE0 + n / 0x1000 - 0xE0) * 0x1000 +
            (0x80 + (n / 0x40) % 0x40 - 0x80) * 0x40 + (0x80 + n % 0x40 - 0x80) = n := by
          omega
        have dcond : 0x80 ≤ 0x80 + (n / 0x40) % 0x40 ∧ 0x80 + (n / 0x40) % 0x40 < 0xC0 ∧
            0x80 ≤ 0x80 + n % 0x40 ∧ 0x80 + n % 0x40 < 0xC0 ∧
            0x800 ≤ n ∧ Nat.isValidChar n :=
          ⟨by omega, by omega, by omega, by omega, by omega, hv⟩
        simp only [utf8EncodeChar, ← hn, if_neg ha, if_neg hb, if_pos hc, List.cons_append,
          List.nil_append, utf8DecodeChar?, if_neg d1, if_neg d2, if_neg d3, if_pos d4]
        rw [dcp, if_pos dcond, hofn]
      · have hd : n < 0x110000 := by
          rcases hv with h1 | ⟨h1, h2⟩ <;> omega
        have d1 : ¬ (0xF0 + n / 0x40000 < 0x80) := by omega
        have d2 : ¬ (0xF0 + n / 0x40000 < 0xC2) := by omega
        have d3 : ¬ (0xF0 + n / 0x40000 < 0xE0) := by omega
        have d4 : ¬ (0xF0 + n / 0x40000 < 0xF0) := by omega
        have d5 : 0xF0 + n / 0x40000 < 0xF5 := by omega
        have dcp : (0xF0 + n / 0x40000 - 0xF0) * 0x40000 +
            (0x80 + (n / 0x1000) % 0x40 - 0x80) * 0x1000 +
            (0x80 + (n / 0x40) % 0x40 - 0x80) * 0x40 + (0x80 + n % 0x40 - 0x80) = n := by
          omega
        have dcond : 0x80 ≤ 0x80 + (n / 0x1000) % 0x40 ∧ 0x80 + (n / 0x1000) % 0x40 < 0xC0 ∧
            0x80 ≤ 0x80 + (n / 0x40) % 0x40 ∧ 0x80 + (n / 0x40) % 0x40 < 0xC0 ∧
            0x80 ≤ 0x80 + n % 0x40 ∧ 0x80 + n % 0x40 < 0xC0 ∧
            0x10000 ≤ n ∧ n < 0x110000 :=
          ⟨by omega, by omega, by omega, by omega, by omega, by omega, by omega, hd⟩
        simp only [utf8EncodeChar, ← hn, if_neg ha, if_neg hb, if_neg hc, List.cons_append,
          List.nil_append, utf8DecodeChar?, if_neg d1, if_neg d2, if_neg d3, if_neg d4,
          if_pos d5]
        rw [dcp, if_pos dcond, hofn]

theorem utf8EncodeChar_ne_nil (c : Char) : utf8EncodeChar c ≠ [] := by
  simp only [utf8EncodeChar]
  repeat' split
  all_goals simp

theorem utf8DecodeListFuel_encode (cs : List Char) :
    ∀ fuel : Nat, ((cs.map utf8EncodeChar).flatten).length ≤ fuel →
      utf8DecodeListFuel fuel ((cs.map utf8EncodeChar).flatten) = some cs := by
  induction cs with
  | nil => intro fuel _; cases fuel <;> rfl
  | cons c cs ih =>
    intro fuel hle
    obtain ⟨b, bs, hbs⟩ := List.exists_cons_of_ne_nil (utf8EncodeChar_ne_nil c)
    have hflat : ((c :: cs).map utf8EncodeChar).flatten
        = utf8EncodeChar c ++ (cs.map utf8EncodeChar).flatten := by
      simp
    rw [hflat] at hle ⊢
    have hlen : ((cs.map utf8EncodeChar).flatten).length + 1 ≤ fuel := by
      have := List.length_append (utf8EncodeChar c) ((cs.map utf8EncodeChar).flatten)
      have hpos : 0 < (utf8EncodeChar c).length := by
        cases hec : utf8EncodeChar c with
        | nil => exact absurd hec (utf8EncodeChar_ne_nil c)
        | cons x xs => simp
      omega
    match fuel, hlen with
    | f + 1, hlen =>
      rw [hbs, List.cons_append]
      show utf8DecodeListFuel (f + 1) (b :: (bs ++ (cs.map utf8EncodeChar).flatten)) = _
      rw [utf8DecodeListFuel]
      rw [show b :: (bs ++ (cs.map utf8EncodeChar).flatten)
            = utf8EncodeChar c ++ (cs.map utf8EncodeChar).flatten by rw [hbs]; simp]
      rw [utf8DecodeChar?_encodeChar c]
      show (match utf8DecodeListFuel f ((cs.map utf8EncodeChar).flatten) with
            | some cs2 => some (c :: cs2) | none => none) = some (c :: cs)
      rw [ih f (by omega)]

/-- Round trip: the byte image of a Rust `String` always decodes back to
the same string (Rust `String::from_utf8(s.into_bytes()) == Ok(s)`). -/
theorem utf8Decode?_strToBytes (s : String) : utf8Decode? (strToBytes s) = some s := by
  rcases s with ⟨cs⟩
  unfold utf8Decode? utf8DecodeList? strToBytes
  rw [utf8DecodeListFuel_encode cs _ le_rfl]

/-- Modelled from the spec (§3, §4.4): the attribute store of
`metadata.rs` (not in `src/`): "value keyed by (Identifier,
attribute-name bytes) → value bytes". -/
structure MetadataData where
  attributes : AMap (Id × List Nat) (List Nat)
deriving DecidableEq, Repr

/-- Modelled from the spec (§4.4): `set_attribute(id, key, value)` is an
"idempotent upsert" on the attribute store; the store itself imposes no
validation, so it always succeeds (the name-interning table, which can
fail, lives in `Manager`, see `psp34_standard.rs`). -/
def MetadataData.set_attribute (d : MetadataData) (id : Id) (key value : List Nat) :
    Except Error Unit × MetadataData :=
  (.ok (), ⟨d.attributes.insert (id, key) value⟩)

/-- Modelled from the spec (§4.4): `get_attribute(id, key)` "returns
stored value or None if never set". -/
def MetadataData.get_attribute (d : MetadataData) (id : Id) (key : List Nat) :
    Option (List Nat) :=
  d.attributes.get (id, key)

/-- The `Manager` storage struct of `psp34_standard.rs`. -/
structure Manager where
  last_token_id : Nat
  attribute_count : Nat
  attribute_names : AMap Nat (List Nat)
  is_attribute : AMap String Bool
  locked_tokens : AMap Id Bool
  locked_token_count : Nat
  metadata : MetadataData
deriving DecidableEq, Repr

/-- `Manager::new()`, which is `Default::default()`. -/
def Manager.new : Manager :=
  { last_token_id := 0, attribute_count := 0, attribute_names := [],
    is_attribute := [], locked_tokens := [], locked_token_count := 0,
    metadata := ⟨[]⟩ }

/-- `Manager::get_last_token_id`. -/
def Manager.get_last_token_id (m : Manager) : Nat :=
  m.last_token_id

/-- `Manager::lock` (`psp34_standard.rs` lines 32-42): checked increment of
`locked_token_count`, then insert the lock flag. -/
def Manager.lock (m : Manager) (token_id : Id) : Except Error Unit × Manager :=
  match checkedAdd U64MAX m.locked_token_count 1 with
  | some locked_token_count =>
    (.ok (), { m with locked_token_count := locked_token_count,
                      locked_tokens := m.locked_tokens.insert token_id true })
  | none => (.error (Error.Custom "Cannot increase locked token count"), m)

/-- `Manager::is_locked_nft` (`psp34_standard.rs` lines 45-50). -/
def Manager.is_locked_nft (m : Manager) (token_id : Id) : Bool :=
  (m.locked_tokens.get token_id).isSome

/-- `Manager::get_locked_token_count`. -/
def Manager.get_locked_token_count (m : Manager) : Nat :=
  m.locked_token_count

/-- `Manager::set_base_uri` (`psp34_standard.rs` lines 58-65). -/
def Manager.set_base_uri (m : Manager) (uri : String) : Except Error Unit × Manager :=
  match m.metadata.set_attribute (Id.U8 0) (strToBytes "baseURI") (strToBytes uri) with
  | (.ok _, md) => (.ok (), { m with metadata := md })
  | (.error e, md) => (.error e, { m with metadata := md })

/-- `Manager::add_attribute_name` (`psp34_standard.rs` lines 149-171). -/
def Manager.add_attribute_name (m : Manager) (attribute_input : List Nat) :
    Except Error Unit × Manager :=
  match utf8Decode? attribute_input with
  | some attr_input =>
    if !(m.is_attribute.get attr_input).isSome then
      match checkedAdd U32MAX m.attribute_count 1 with
      | some attribute_count =>
        (.ok (), { m with attribute_count := attribute_count,
                          attribute_names := m.attribute_names.insert attribute_count attribute_input,
                          is_attribute := m.is_attribute.insert attr_input true })
      | none => (.error (Error.Custom "Fail to increase attribute count"), m)
    else (.error (Error.Custom "Attribute input exists"), m)
  | none => (.error (Error.Custom "Attribute input error"), m)

/-- The `for (attribute, value) in &metadata` loop body of
`Manager::set_multiple_attributes` (`psp34_standard.rs` lines 79-86),
embedded as structural recursion over the pair list. -/
def Manager.set_attributes_loop (m : Manager) (token_id : Id) :
    List (String × String) → Except Error Unit × Manager
  | [] => (.ok (), m)
  | (attr, value) :: rest =>
    match m.add_attribute_name (strToBytes attr) with
    | (.ok _, m1) =>
      match m1.metadata.set_attribute token_id (strToBytes attr) (strToBytes value) with
      | (.ok _, md) => Manager.set_attributes_loop { m1 with metadata := md } token_id rest
      | (.error e, md) => (.error e, { m1 with metadata := md })
    | (.error e, m1) => (.error e, m1)

/-- `Manager::set_multiple_attributes` (`psp34_standard.rs` lines 68-88). -/
def Manager.set_multiple_attributes (m : Manager) (token_id : Id)
    (metadata : List (String × String)) : Except Error Unit × Manager :=
  if token_id = Id.U64 0 then (.error Error.InvalidInput, m)
  else if m.is_locked_nft token_id then (.error (Error.Custom "Token is locked"), m)
  else m.set_attributes_loop token_id metadata

/-- `Manager::get_attributes` (`psp34_standard.rs` lines 91-111): the
indexed `for i in 0..length` push loop, embedded as a fold over the
requested names. -/
def Manager.get_attributes (m : Manager) (token_id : Id)
    (attributes : List String) : List String :=
  attributes.foldl
    (fun ret attr =>
      match m.metadata.get_attribute token_id (strToBytes attr) with
      | some value_in_bytes =>
        match utf8Decode? value_in_bytes with
        | some value_in_string => ret ++ [value_in_string]
        | none => ret ++ [""]
      | none => ret ++ [""])
    []

/-- `Manager::get_attribute_count`. -/
def Manager.get_attribute_count (m : Manager) : Nat :=
  m.attribute_count

/-- `Manager::get_attribute_name` (`psp34_standard.rs` lines 118-130). -/
def Manager.get_attribute_name (m : Manager) (index : Nat) : String :=
  match m.attribute_names.get index with
  | some value_in_bytes =>
    match utf8Decode? value_in_bytes with
    | some value_in_string => value_in_string
    | none => ""
  | none => ""

/-- `Manager::token_uri` (`psp34_standard.rs` lines 133-147). -/
def Manager.token_uri (m : Manager) (token_id : Nat) : String :=
  let value := m.metadata.get_attribute (Id.U8 0) (strToBytes "baseURI")
  let uri :=
    match value with
    | some value_in_bytes =>
      match utf8Decode? value_in_bytes with
      | some value_in_string => value_in_string
      | none => ""
    | none => ""
  uri ++ Nat.repr token_id ++ ".json"

/-- Modelled from the spec: the single-role access-control helper
(`ownable.rs` is not in `src/`): it "exposes current_owner(),
is_owner(caller), ownership transfer/renounce". -/
structure OwnableData where
  owner : Option AccountId
deriving DecidableEq, Repr

/-- Modelled from the spec: `_check_owner(Some(caller))` succeeds exactly
when the caller is the stored owner, otherwise `CallerIsNotOwner`. -/
def OwnableData.check_owner (d : OwnableData) (caller : Option AccountId) :
    Except OwnableError Unit :=
  if caller = d.owner ∧ caller ≠ none then .ok () else .error .CallerIsNotOwner

/-- Modelled from the spec (§3, §4.1, §4.2): the token ledger and approval
state of `data.rs` (not in `src/`): owner-map, balance-map, supply
scalar, collection-wide approval relation keyed `(owner, operator)` and
per-token approval relation keyed `(owner, operator, Identifier)`. The
enumeration indices are omitted: no claim mentions them. -/
structure PSP34Data where
  owners : AMap Id AccountId
  operator_approvals : AMap (AccountId × AccountId) Bool
  token_approvals : AMap (AccountId × AccountId × Id) Bool
  balances : AMap AccountId Nat
  supply : Nat
deriving DecidableEq, Repr

def PSP34Data.empty : PSP34Data :=
  { owners := [], operator_approvals := [], token_approvals := [],
    balances := [], supply := 0 }

/-- Modelled from the spec (§4.1): `owner_of(id)` reads the owner map. -/
def PSP34Data.owner_of (d : PSP34Data) (id : Id) : Option AccountId :=
  d.owners.get id

/-- Modelled from the spec (§4.2): `allowance(owner, operator, id)`; with
`Some id` either the per-token or the collection-wide relation suffices,
with `None` only the collection-wide relation counts. -/
def PSP34Data.allowance (d : PSP34Data) (owner operator : AccountId)
    (id : Option Id) : Bool :=
  match id with
  | none => ((d.operator_approvals.get (owner, operator)).getD false)
  | some i =>
    ((d.operator_approvals.get (owner, operator)).getD false) ||
      ((d.token_approvals.get (owner, operator, i)).getD false)

/-- Modelled from the spec (§4.1): `mint(owner, id)` fails with
`TokenExists` if `id` is already owned, with a supply-overflow error (the
message documented in `traits.rs`) if the supply cannot grow; otherwise
it records ownership and bumps balance and supply. -/
def PSP34Data.mint (d : PSP34Data) (owner : AccountId) (id : Id) :
    Except PSP34Error PSP34Data :=
  if (d.owners.get id).isSome then .error .TokenExists
  else if d.supply + 1 ≤ U128MAX then
    .ok { d with owners := d.owners.insert id owner,
                 balances := d.balances.insert owner ((d.balances.get owner).getD 0 + 1),
                 supply := d.supply + 1 }
  else .error (.Custom "max supply exceeded")

/-- Modelled from the spec (§4.1): `burn(caller, account, id)` checks
existence, ownership and authorization, then removes the token, clears
approvals referencing it and decrements balance and supply. -/
def PSP34Data.burn (d : PSP34Data) (caller account : AccountId) (id : Id) :
    Except PSP34Error PSP34Data :=
  match d.owners.get id with
  | none => .error .TokenNotExists
  | some owner =>
    if owner ≠ account then .error .NotOwner
    else if caller = account || d.allowance account caller (some id) then
      .ok { d with owners := d.owners.remove id,
                   token_approvals :=
                     d.token_approvals.filter (fun p => decide (p.1.2.2 ≠ id)),
                   balances := d.balances.insert account ((d.balances.get account).getD 0 - 1),
                   supply := d.supply - 1 }
    else .error .NotApproved

/-- Modelled from the spec (§4.1): `transfer(caller, to, id, payload)`
checks existence and authorization, clears the per-token approvals for
`id`, moves ownership and adjusts the two balances; `payload` is opaque. -/
def PSP34Data.transfer (d : PSP34Data) (caller dest : AccountId) (id : Id)
    (payload : List Nat) : Except PSP34Error PSP34Data :=
  match d.owners.get id with
  | none => .error .TokenNotExists
  | some owner =>
    if caller = owner || d.allowance owner caller (some id) then
      .ok { d with owners := d.owners.insert id dest,
                   token_approvals :=
                     d.token_approvals.filter (fun p => decide (p.1.2.2 ≠ id)),
                   balances :=
                     (d.balances.insert owner ((d.balances.get owner).getD 0 - 1)).insert dest
                       (((d.balances.insert owner ((d.balances.get owner).getD 0 - 1)).get dest).getD 0 + 1) }
    else .error .NotApproved

/-- Modelled from the spec (§4.2): `approve(caller, operator, id,
approved)` rejects self-approval, sets the collection-wide relation when
`id` is `None`, and otherwise requires the caller to be the owner of (or
authorized over) `id` before setting the per-token relation. -/
def PSP34Data.approve (d : PSP34Data) (caller operator : AccountId)
    (id : Option Id) (approved : Bool) : Except PSP34Error PSP34Data :=
  if operator = caller then .error .SelfApprove
  else
    match id with
    | none =>
      .ok { d with operator_approvals :=
        d.operator_approvals.insert (caller, operator) approved }
    | some i =>
      match d.owners.get i with
      | none => .error .TokenNotExists
      | some owner =>
        if caller = owner || d.allowance owner caller (some i) then
          .ok { d with token_approvals :=
            d.token_approvals.insert (owner, operator, i) approved }
        else .error .NotApproved

/-- The contract storage struct `Psp34Nft` of `lib.rs`. -/
structure Psp34Nft where
  data : PSP34Data
  ownable : OwnableData
  manager_psp34_standard : Manager
deriving DecidableEq, Repr

/-- The constructor `Psp34Nft::new(contract_owner, name, symbol)`
(`lib.rs` lines 39-62): initialize ownership and store the collection
`name` and `symbol` attributes on the pseudo-token `Id::U8(0)`. -/
def Psp34Nft.new (contract_owner : AccountId) (name symbol : String) : Psp34Nft :=
  let m0 := Manager.new
  let md1 := (m0.metadata.set_attribute (Id.U8 0) (strToBytes "name") (strToBytes name)).2
  let md2 := (md1.set_attribute (Id.U8 0) (strToBytes "symbol") (strToBytes symbol)).2
  { data := PSP34Data.empty, ownable := ⟨some contract_owner⟩,
    manager_psp34_standard := { m0 with metadata := md2 } }

/-- `Psp34Nft::mint` (`lib.rs` lines 66-79), before dispatch-level
revert: owner check, checked increment of `last_token_id`, ledger mint of
`Id::U64(last_token_id)`. -/
def Psp34Nft.mint_raw (caller : AccountId) (s : Psp34Nft) :
    Except Error Unit × Psp34Nft :=
  match s.ownable.check_owner (some caller) with
  | .error e => (.error (Error.OwnableError e), s)
  | .ok _ =>
    match checkedAdd U64MAX s.manager_psp34_standard.last_token_id 1 with
    | some last_token_id =>
      let s1 := { s with manager_psp34_standard :=
        { s.manager_psp34_standard with last_token_id := last_token_id } }
      match s1.data.mint caller (Id.U64 last_token_id) with
      | .ok d => (.ok (), { s1 with data := d })
      | .error e => (.error (Error.PSP34 e), s1)
    | none => (.error (Error.Custom "Cannot increase last token id"), s)

/-- `Psp34Traits::set_multiple_attributes` for `Psp34Nft` (`lib.rs` lines
324-333), before dispatch-level revert: owner check, then the manager
operation. -/
def Psp34Nft.set_multiple_attributes_raw (caller : AccountId) (token_id : Id)
    (pairs : List (String × String)) (s : Psp34Nft) : Except Error Unit × Psp34Nft :=
  match s.ownable.check_owner (some caller) with
  | .error e => (.error (Error.OwnableError e), s)
  | .ok _ =>
    let (r, m) := s.manager_psp34_standard.set_multiple_attributes token_id pairs
    (r, { s with manager_psp34_standard := m })

/-- `Psp34Nft::mint_with_attributes` (`lib.rs` lines 83-108), before
dispatch-level revert: mint as in `mint`, then set the attributes on the
fresh token, mapping any attribute failure to a custom error. -/
def Psp34Nft.mint_with_attributes_raw (caller : AccountId)
    (pairs : List (String × String)) (s : Psp34Nft) : Except Error Unit × Psp34Nft :=
  match s.ownable.check_owner (some caller) with
  | .error e => (.error (Error.OwnableError e), s)
  | .ok _ =>
    match checkedAdd U64MAX s.manager_psp34_standard.last_token_id 1 with
    | some last_token_id =>
      let s1 := { s with manager_psp34_standard :=
        { s.manager_psp34_standard with last_token_id := last_token_id } }
      match s1.data.mint caller (Id.U64 last_token_id) with
      | .ok d =>
        let s2 := { s1 with data := d }
        match Psp34Nft.set_multiple_attributes_raw caller (Id.U64 last_token_id) pairs s2 with
        | (.ok _, s3) => (.ok (), s3)
        | (.error _, s3) => (.error (Error.Custom "Cannot set attributes"), s3)
      | .error e => (.error (Error.PSP34 e), s1)
    | none => (.error (Error.Custom "Cannot increase last token id"), s)

/-- `PSP34Burnable::burn` for `Psp34Nft` (`lib.rs` lines 233-268), before
dispatch-level revert. Note the source removes the lock flag and
unconditionally `checked_sub`s the lock counter before calling the ledger
burn. -/
def Psp34Nft.burn_raw (caller account : AccountId) (id : Id) (s : Psp34Nft) :
    Except PSP34Error Unit × Psp34Nft :=
  match s.data.owner_of id with
  | some token_owner =>
    if token_owner ≠ account then (.error (.Custom "not token owner"), s)
    else if caller = account || s.data.allowance account caller (some id) then
      let m1 := { s.manager_psp34_standard with
        locked_tokens := s.manager_psp34_standard.locked_tokens.remove id }
      match checkedSub m1.locked_token_count 1 with
      | some locked_token_count =>
        let s2 := { s with manager_psp34_standard :=
          { m1 with locked_token_count := locked_token_count } }
        match s2.data.burn caller account id with
        | .ok d => (.ok (), { s2 with data := d })
        | .error e => (.error e, s2)
      | none =>
        (.error (.Custom "Locked token count error"),
          { s with manager_psp34_standard := m1 })
    else (.error (.Custom "caller is not token owner or approved"), s)
  | none => (.error (.Custom "No token owner found"), s)

/-- `PSP34::transfer` for `Psp34Nft` (`lib.rs` lines 193-202), before
dispatch-level revert. -/
def Psp34Nft.transfer_raw (caller dest : AccountId) (id : Id) (payload : List Nat)
    (s : Psp34Nft) : Except PSP34Error Unit × Psp34Nft :=
  match s.data.transfer caller dest id payload with
  | .ok d => (.ok (), { s with data := d })
  | .error e => (.error e, s)

/-- `PSP34::approve` for `Psp34Nft` (`lib.rs` lines 204-216), before
dispatch-level revert. -/
def Psp34Nft.approve_raw (caller operator : AccountId) (id : Option Id)
    (approved : Bool) (s : Psp34Nft) : Except PSP34Error Unit × Psp34Nft :=
  match s.data.approve caller operator id approved with
  | .ok d => (.ok (), { s with data := d })
  | .error e => (.error e, s)

/-- `Psp34Traits::set_base_uri` for `Psp34Nft` (`lib.rs` lines 319-323),
before dispatch-level revert. -/
def Psp34Nft.set_base_uri_raw (caller : AccountId) (uri : String) (s : Psp34Nft) :
    Except Error Unit × Psp34Nft :=
  match s.ownable.check_owner (some caller) with
  | .error e => (.error (Error.OwnableError e), s)
  | .ok _ =>
    let (r, m) := s.manager_psp34_standard.set_base_uri uri
    (r, { s with manager_psp34_standard := m })

/-- `Psp34Traits::lock` for `Psp34Nft` (`lib.rs` lines 356-362), before
dispatch-level revert: only the current owner of the token may lock it. -/
def Psp34Nft.lock_raw (caller : AccountId) (token_id : Id) (s : Psp34Nft) :
    Except Error Unit × Psp34Nft :=
  if s.data.owner_of token_id ≠ some caller then
    (.error (Error.OwnableError .CallerIsNotOwner), s)
  else
    let (r, m) := s.manager_psp34_standard.lock token_id
    match r with
    | .ok _ => (.ok (), { s with manager_psp34_standard := m })
    | .error e => (.error e, { s with manager_psp34_standard := m })

/-- `Ownable::transfer_ownership` for `Psp34Nft` (`lib.rs` lines
305-315), before dispatch-level revert; the ownable store itself is
modelled from the spec. -/
def Psp34Nft.transfer_ownership_raw (caller : AccountId)
    (new_owner : Option AccountId) (s : Psp34Nft) : Except OwnableError Unit × Psp34Nft :=
  match s.ownable.check_owner (some caller) with
  | .error e => (.error e, s)
  | .ok _ => (.ok (), { s with ownable := ⟨new_owner⟩ })

/-- `Ownable::renounce_ownership` for `Psp34Nft` (`lib.rs` lines
294-304), before dispatch-level revert; the ownable store itself is
modelled from the spec. -/
def Psp34Nft.renounce_ownership_raw (caller : AccountId) (s : Psp34Nft) :
    Except OwnableError Unit × Psp34Nft :=
  match s.ownable.check_owner (some caller) with
  | .error e => (.error e, s)
  | .ok _ => (.ok (), { s with ownable := ⟨none⟩ })

/-- Modelled from the spec (§5, §7): the ink! message-dispatch layer (not
in `src/`) "must translate failure into an aborted, fully-reverted call
(no partial effects visible externally)": a message commits its state
changes only when it returns success. -/
def msg (f : Psp34Nft → Except ε Unit × Psp34Nft) (s : Psp34Nft) :
    Except ε Unit × Psp34Nft :=
  match f s with
  | (.ok u, s1) => (.ok u, s1)
  | (.error e, _) => (.error e, s)

/-- One external call to the contract: every state-mutating message of
`lib.rs`, tagged with its caller. -/
inductive Op where
  | mint (caller : AccountId)
  | mintWithAttributes (caller : AccountId) (pairs : List (String × String))
  | transfer (caller dest : AccountId) (id : Id) (payload : List Nat)
  | approve (caller operator : AccountId) (id : Option Id) (approved : Bool)
  | burn (caller account : AccountId) (id : Id)
  | setBaseUri (caller : AccountId) (uri : String)
  | setMultipleAttributes (caller : AccountId) (id : Id) (pairs : List (String × String))
  | lock (caller : AccountId) (id : Id)
  | transferOwnership (caller : AccountId) (new_owner : Option AccountId)
  | renounceOwnership (caller : AccountId)
deriving DecidableEq, Repr

/-- The state reached after one external call (with dispatch-level
revert on failure). -/
def step (op : Op) (s : Psp34Nft) : Psp34Nft :=
  match op with
  | .mint c => (msg (Psp34Nft.mint_raw c) s).2
  | .mintWithAttributes c pairs => (msg (Psp34Nft.mint_with_attributes_raw c pairs) s).2
  | .transfer c dest id payload => (msg (Psp34Nft.transfer_raw c dest id payload) s).2
  | .approve c operator id approved => (msg (Psp34Nft.approve_raw c operator id approved) s).2
  | .burn c account id => (msg (Psp34Nft.burn_raw c account id) s).2
  | .setBaseUri c uri => (msg (Psp34Nft.set_base_uri_raw c uri) s).2
  | .setMultipleAttributes c id pairs =>
    (msg (Psp34Nft.set_multiple_attributes_raw c id pairs) s).2
  | .lock c id => (msg (Psp34Nft.lock_raw c id) s).2
  | .transferOwnership c new_owner => (msg (Psp34Nft.transfer_ownership_raw c new_owner) s).2
  | .renounceOwnership c => (msg (Psp34Nft.renounce_ownership_raw c) s).2

/-- Reachable contract states: any constructed contract, closed under
external calls. -/
inductive Reachable : Psp34Nft → Prop
  | init (contract_owner : AccountId) (name symbol : String) :
      Reachable (Psp34Nft.new contract_owner name symbol)
  | next {s : Psp34Nft} (h : Reachable s) (op : Op) : Reachable (step op s)

theorem AMap.get_insert_self [DecidableEq α] (m : AMap α β) (k : α) (v : β) :
    (m.insert k v).get k = some v := by
  simp [AMap.insert, AMap.get]

theorem AMap.get_remove_ne [DecidableEq α] (m : AMap α β) (k k' : α) (h : k' ≠ k) :
    (m.remove k).get k' = m.get k' := by
  induction m with
  | nil => rfl
  | cons p t ih =>
    obtain ⟨pk, pv⟩ := p
    simp only [AMap.remove, List.filter_cons] at ih ⊢
    by_cases hk : pk = k
    · subst hk
      rw [if_neg (by simp)]
      rw [ih]
      simp only [AMap.get, if_neg h]
    · rw [if_pos (by simp [hk])]
      by_cases hq : k' = pk
      · simp [AMap.get, hq]
      · simp only [AMap.get, if_neg hq]
        exact ih

theorem AMap.get_insert_ne [DecidableEq α] (m : AMap α β) (k k' : α) (v : β)
    (h : k' ≠ k) : (m.insert k v).get k' = m.get k' := by
  simp only [AMap.insert, AMap.get, if_neg h]
  exact AMap.get_remove_ne m k k' h

theorem AMap.get_remove_self [DecidableEq α] (m : AMap α β) (k : α) :
    (m.remove k).get k = none := by
  induction m with
  | nil => rfl
  | cons p t ih =>
    obtain ⟨pk, pv⟩ := p
    simp only [AMap.remove, List.filter_cons] at ih ⊢
    by_cases hk : pk = k
    · subst hk
      rw [if_neg (by simp)]
      exact ih
    · rw [if_pos (by simp [hk])]
      simp only [AMap.get]
      rw [if_neg (show k ≠ pk from fun hc => hk hc.symm)]
      exact ih

theorem AMap.get_singleton_isSome [DecidableEq α] (k x : α) (v : β) :
    (AMap.get [(k, v)] x).isSome = true ↔ x = k := by
  by_cases h : x = k
  · simp [AMap.get, h]
  · simp [AMap.get, h]

theorem MetadataData.set_attribute_fst (d : MetadataData) (id : Id)
    (key value : List Nat) : (d.set_attribute id key value).1 = .ok () :=
  rfl

theorem Manager.add_attribute_name_no_invalid (m : Manager) (b : List Nat) :
    (m.add_attribute_name b).1 ≠ .error Error.InvalidInput := by
  intro h
  unfold Manager.add_attribute_name at h
  repeat' split at h
  all_goals simp only [apply_ite Prod.fst] at h
  all_goals simp at h

theorem Manager.set_attributes_loop_no_invalid (token_id : Id) :
    ∀ (pairs : List (String × String)) (m : Manager),
      (m.set_attributes_loop token_id pairs).1 ≠ .error Error.InvalidInput := by
  intro pairs
  induction pairs with
  | nil => intro m; simp [Manager.set_attributes_loop]
  | cons p rest ih =>
    intro m
    obtain ⟨attr, value⟩ := p
    unfold Manager.set_attributes_loop
    cases hadd : m.add_attribute_name (strToBytes attr) with
    | mk r1 m1 =>
      cases r1 with
      | ok u =>
        simp only
        exact ih _
      | error e =>
        simp only
        intro hc
        cases hc
        have := Manager.add_attribute_name_no_invalid m (strToBytes attr)
        rw [hadd] at this
        exact this rfl

/-- C6 (counterexample): on a fresh manager, `set_multiple_attributes` at
the collection pseudo-token `Id::U8(0)` succeeds rather than failing with
`InvalidInput`, while the non-pseudo-token `Id::U64(0)` does trigger the
guard. -/
theorem c6_counterexample :
    (Manager.new.set_multiple_attributes (Id.U8 0) [("a", "b")]).1 = .ok () ∧
      (Manager.new.set_multiple_attributes (Id.U64 0) [("a", "b")]).1
        = .error Error.InvalidInput := by
  constructor
  · decide
  · decide

/-- The value `get_attributes` is specified to produce for one requested
name: the stored attribute decoded as text, or the empty string when the
attribute is absent or its bytes are not valid text. -/
def specAttrValue (m : Manager) (token_id : Id) (a : String) : String :=
  match m.metadata.get_attribute token_id (strToBytes a) with
  | some value_in_bytes =>
    match utf8Decode? value_in_bytes with
    | some value_in_string => value_in_string
    | none => ""
  | none => ""

theorem Manager.get_attributes_foldl (m : Manager) (token_id : Id) :
    ∀ (names : List String) (acc : List String),
      names.foldl
        (fun ret attr =>
          match m.metadata.get_attribute token_id (strToBytes attr) with
          | some value_in_bytes =>
            match utf8Decode? value_in_bytes with
            | some value_in_string => ret ++ [value_in_string]
            | none => ret ++ [""]
          | none => ret ++ [""]) acc
        = acc ++ names.map (specAttrValue m token_id) := by
  intro names
  induction names with
  | nil => intro acc; simp
  | cons a t ih =>
    intro acc
    rw [List.foldl_cons, ih]
    have hbody : (match m.metadata.get_attribute token_id (strToBytes a) with
        | some value_in_bytes =>
          match utf8Decode? value_in_bytes with
          | some value_in_string => acc ++ [value_in_string]
          | none => acc ++ [""]
        | none => acc ++ [""]) = acc ++ [specAttrValue m token_id a] := by
      unfold specAttrValue
      cases m.metadata.get_attribute token_id (strToBytes a) with
      | none => rfl
      | some v =>
        dsimp only
        cases utf8Decode? v <;> rfl
    rw [hbody, List.map_cons, List.append_assoc, List.singleton_append]

/-- C8: `get_attributes(id, names)` is total and shape-preserving: it
equals, name by name and in order, the stored value decoded as text (or
the empty string when the attribute is absent or not valid text), and in
particular its length always equals the length of the request list. -/
theorem c8_get_attributes_total_shape (m : Manager) (token_id : Id)
    (names : List String) :
    m.get_attributes token_id names = names.map (specAttrValue m token_id) ∧
      (m.get_attributes token_id names).length = names.length := by
  have h : m.get_attributes token_id names = names.map (specAttrValue m token_id) := by
    unfold Manager.get_attributes
    rw [Manager.get_attributes_foldl]
    simp
  exact ⟨h, by rw [h]; simp⟩

/-- C9: `token_uri(id)` is the collection's `baseURI` attribute decoded
as text (empty if unset or invalid) followed by the decimal token id and
the fixed suffix `.json`; and after a successful `set_base_uri(u)` it is
exactly `u ++ decimal(id) ++ ".json"`. -/
theorem c9_token_uri (m : Manager) (token_id : Nat) :
    (m.token_uri token_id =
      (match m.metadata.get_attribute (Id.U8 0) (strToBytes "baseURI") with
       | some value_in_bytes =>
         match utf8Decode? value_in_bytes with
         | some value_in_string => value_in_string
         | none => ""
       | none => "") ++ Nat.repr token_id ++ ".json") ∧
    (∀ (uri : String) (m1 : Manager), m.set_base_uri uri = (.ok (), m1) →
      m1.token_uri token_id = uri ++ Nat.repr token_id ++ ".json") := by
  constructor
  · rfl
  · intro uri m1 h
    unfold Manager.set_base_uri at h
    simp only [MetadataData.set_attribute] at h
    cases h
    unfold Manager.token_uri MetadataData.get_attribute
    simp only [AMap.get_insert_self]
    rw [utf8Decode?_strToBytes]

/-- C9 (witness): on a fresh manager, after `set_base_uri("ipfs://hash/")`
the URI of token 7 is `ipfs://hash/7.json`. -/
theorem c9_token_uri_witness :
    (Manager.new.set_base_uri "ipfs://hash/").2.token_uri 7 = "ipfs://hash/7.json" := by
  have h := (c9_token_uri Manager.new 7).2 "ipfs://hash/"
    (Manager.new.set_base_uri "ipfs://hash/").2 (by decide)
  exact h.trans (by decide)

/-- C3 (failing input): re-using an attribute name does not succeed as an
idempotent upsert: the second `set_multiple_attributes` call with the
already-interned name `"a"` fails with `Custom("Attribute input exists")`
(the error is raised by `add_attribute_name` and propagated by the `?` in
the loop), leaving the attribute count at 1. -/
theorem c3_attribute_reuse_fails :
    (Manager.new.set_multiple_attributes (Id.U64 1) [("a", "v1")]).1 = .ok () ∧
    ((Manager.new.set_multiple_attributes (Id.U64 1) [("a", "v1")]).2.set_multiple_attributes
        (Id.U64 1) [("a", "v2")]).1 = .error (Error.Custom "Attribute input exists") ∧
    ((Manager.new.set_multiple_attributes (Id.U64 1) [("a", "v1")]).2.set_multiple_attributes
        (Id.U64 1) [("a", "v2")]).2.get_attribute_count = 1 := by
  refine ⟨by decide, by decide, by decide⟩

theorem msg_error_state_unchanged (f : Psp34Nft → Except ε Unit × Psp34Nft)
    (s : Psp34Nft) (e : ε) (h : (msg f s).1 = .error e) : (msg f s).2 = s := by
  revert h
  unfold msg
  cases hf : f s with
  | mk r s1 =>
    cases r with
    | ok u => intro h; simp at h
    | error e1 => intro h; rfl

/-- C4: message-level mutations are all-or-nothing: whenever
`mint_with_attributes` or `set_multiple_attributes` returns an error
(including an attribute-phase failure after the mint phase), the
dispatched call leaves the contract state exactly as it was before the
call, so no token, counter change or attribute pair is committed. -/
theorem c4_mutations_all_or_nothing :
    (∀ (caller : AccountId) (pairs : List (String × String)) (s : Psp34Nft) (e : Error),
        (msg (Psp34Nft.mint_with_attributes_raw caller pairs) s).1 = .error e →
        (msg (Psp34Nft.mint_with_attributes_raw caller pairs) s).2 = s) ∧
    (∀ (caller : AccountId) (token_id : Id) (pairs : List (String × String))
        (s : Psp34Nft) (e : Error),
        (msg (Psp34Nft.set_multiple_attributes_raw caller token_id pairs) s).1 = .error e →
        (msg (Psp34Nft.set_multiple_attributes_raw caller token_id pairs) s).2 = s) :=
  ⟨fun caller pairs s e h => msg_error_state_unchanged _ s e h,
   fun caller token_id pairs s e h => msg_error_state_unchanged _ s e h⟩

/-- C4 (witness): two concrete failing calls — `mint_with_attributes` by
a non-owner and `set_multiple_attributes` on the guarded `Id::U64(0)` —
leave the freshly constructed contract state unchanged. -/
theorem c4_mutations_all_or_nothing_witness :
    (msg (Psp34Nft.mint_with_attributes_raw 1 [("a", "b")]) (Psp34Nft.new 0 "n" "s")).2
        = Psp34Nft.new 0 "n" "s" ∧
    (msg (Psp34Nft.set_multiple_attributes_raw 0 (Id.U64 0) [("a", "b")])
        (Psp34Nft.new 0 "n" "s")).2 = Psp34Nft.new 0 "n" "s" :=
  ⟨c4_mutations_all_or_nothing.1 1 [("a", "b")] (Psp34Nft.new 0 "n" "s")
      (Error.OwnableError .CallerIsNotOwner) (by decide),
   c4_mutations_all_or_nothing.2 0 (Id.U64 0) [("a", "b")] (Psp34Nft.new 0 "n" "s")
      Error.InvalidInput (by decide)⟩

theorem AMap.get_remove_none [DecidableEq α] (m : AMap α β) (k k' : α)
    (h : m.get k' = none) : (m.remove k).get k' = none := by
  by_cases hk : k' = k
  · subst hk; exact AMap.get_remove_self m k'
  · rw [AMap.get_remove_ne m k k' hk]; exact h

theorem msg_snd_eq_or (f : Psp34Nft → Except ε Unit × Psp34Nft) (s : Psp34Nft) :
    (msg f s).2 = s ∨ (msg f s).2 = (f s).2 := by
  unfold msg
  cases hf : f s with
  | mk r s1 =>
    cases r with
    | ok u => right; rfl
    | error e => left; rfl

theorem Manager.add_attribute_name_locked (m : Manager) (b : List Nat) :
    ((m.add_attribute_name b).2).locked_tokens = m.locked_tokens := by
  unfold Manager.add_attribute_name
  repeat' split
  all_goals rfl

theorem Manager.set_attributes_loop_locked (token_id : Id) :
    ∀ (pairs : List (String × String)) (m : Manager),
      ((m.set_attributes_loop token_id pairs).2).locked_tokens = m.locked_tokens := by
  intro pairs
  induction pairs with
  | nil => intro m; rfl
  | cons p rest ih =>
    intro m
    obtain ⟨attr, value⟩ := p
    unfold Manager.set_attributes_loop
    cases hadd : m.add_attribute_name (strToBytes attr) with
    | mk r1 m1 =>
      have hm1 : m1.locked_tokens = m.locked_tokens := by
        have := Manager.add_attribute_name_locked m (strToBytes attr)
        rw [hadd] at this
        exact this
      cases r1 with
      | ok u =>
        simp only [MetadataData.set_attribute]
        rw [ih]
        exact hm1
      | error e =>
        simp only
        exact hm1

theorem Manager.set_multiple_attributes_locked (m : Manager) (token_id : Id)
    (pairs : List (String × String)) :
    ((m.set_multiple_attributes token_id pairs).2).locked_tokens = m.locked_tokens := by
  unfold Manager.set_multiple_attributes
  repeat' split
  · rfl
  · rfl
  · exact Manager.set_attributes_loop_locked token_id pairs m

theorem Psp34Nft.set_multiple_attributes_raw_locked (c : AccountId) (token_id : Id)
    (pairs : List (String × String)) (s : Psp34Nft) :
    ((Psp34Nft.set_multiple_attributes_raw c token_id pairs s).2).manager_psp34_standard.locked_tokens
      = s.manager_psp34_standard.locked_tokens := by
  unfold Psp34Nft.set_multiple_attributes_raw
  cases hco : s.ownable.check_owner (some c) with
  | error e => rfl
  | ok u =>
    simp only
    cases hsm : s.manager_psp34_standard.set_multiple_attributes token_id pairs with
    | mk r m =>
      simp only
      have h := Manager.set_multiple_attributes_locked s.manager_psp34_standard token_id pairs
      rw [hsm] at h
      exact h

theorem Psp34Nft.mint_raw_locked (c : AccountId) (s : Psp34Nft) :
    ((Psp34Nft.mint_raw c s).2).manager_psp34_standard.locked_tokens
      = s.manager_psp34_standard.locked_tokens := by
  simp only [Psp34Nft.mint_raw]
  repeat' split
  all_goals rfl

theorem Psp34Nft.mint_with_attributes_raw_locked (c : AccountId)
    (pairs : List (String × String)) (s : Psp34Nft) :
    ((Psp34Nft.mint_with_attributes_raw c pairs s).2).manager_psp34_standard.locked_tokens
      = s.manager_psp34_standard.locked_tokens := by
  simp only [Psp34Nft.mint_with_attributes_raw]
  repeat' split
  all_goals try rfl
  all_goals
    rename_i heq
    have h2 := congrArg (fun p => p.2.manager_psp34_standard.locked_tokens) heq
    dsimp only at h2
    rw [Psp34Nft.set_multiple_attributes_raw_locked] at h2
    exact h2.symm

theorem PSP34Data.mint_ok_owners (d : PSP34Data) (owner : AccountId) (id : Id)
    (dd : PSP34Data) (h : d.mint owner id = .ok dd) :
    dd.owners = d.owners.insert id owner := by
  unfold PSP34Data.mint at h
  split at h
  · cases h
  · split at h
    · cases h; rfl
    · cases h

theorem PSP34Data.burn_ok_owners (d : PSP34Data) (caller account : AccountId) (id : Id)
    (dd : PSP34Data) (h : d.burn caller account id = .ok dd) :
    dd.owners = d.owners.remove id := by
  unfold PSP34Data.burn at h
  split at h
  · cases h
  · split at h
    · cases h
    · split at h
      · cases h; rfl
      · cases h

theorem PSP34Data.transfer_ok_owners (d : PSP34Data) (caller dest : AccountId) (id : Id)
    (payload : List Nat) (dd : PSP34Data) (h : d.transfer caller dest id payload = .ok dd) :
    (∃ owner, d.owners.get id = some owner) ∧ dd.owners = d.owners.insert id dest := by
  unfold PSP34Data.transfer at h
  split at h
  · cases h
  · split at h
    · cases h
      rename_i owner heq _
      exact ⟨⟨owner, heq⟩, rfl⟩
    · cases h

theorem PSP34Data.approve_ok_owners (d : PSP34Data) (caller operator : AccountId)
    (id : Option Id) (approved : Bool) (dd : PSP34Data)
    (h : d.approve caller operator id approved = .ok dd) : dd.owners = d.owners := by
  unfold PSP34Data.approve at h
  repeat' split at h
  all_goals cases h
  all_goals rfl

theorem Psp34Nft.set_multiple_attributes_raw_data (c : AccountId) (token_id : Id)
    (pairs : List (String × String)) (s : Psp34Nft) :
    ((Psp34Nft.set_multiple_attributes_raw c token_id pairs s).2).data = s.data := by
  unfold Psp34Nft.set_multiple_attributes_raw
  cases hco : s.ownable.check_owner (some c) with
  | error e => rfl
  | ok u => simp only

/-- The invariant behind C5: on reachable states, `Id::U64(0)` is never
owned (mint only creates ids `Id::U64(k)` with `k ≥ 1`) and never locked
(locking requires an owner). -/
def LockInv (s : Psp34Nft) : Prop :=
  s.data.owners.get (Id.U64 0) = none ∧
  s.manager_psp34_standard.locked_tokens.get (Id.U64 0) = none

theorem lockInv_init (contract_owner : AccountId) (name symbol : String) :
    LockInv (Psp34Nft.new contract_owner name symbol) :=
  ⟨rfl, rfl⟩

theorem mint_raw_lockInv (c : AccountId) (s : Psp34Nft) (h : LockInv s) :
    LockInv ((Psp34Nft.mint_raw c s).2) := by
  obtain ⟨h0, hl⟩ := h
  simp only [Psp34Nft.mint_raw]
  cases hco : s.ownable.check_owner (some c) with
  | error e => exact ⟨h0, hl⟩
  | ok u =>
    simp only
    cases hca : checkedAdd U64MAX s.manager_psp34_standard.last_token_id 1 with
    | none => exact ⟨h0, hl⟩
    | some last =>
      simp only
      have hk : last ≠ 0 := by
        unfold checkedAdd at hca
        split at hca
        · cases hca; omega
        · cases hca
      split
      · rename_i d hmint
        refine ⟨?_, hl⟩
        rw [PSP34Data.mint_ok_owners _ _ _ _ hmint,
          AMap.get_insert_ne _ _ _ _ (show Id.U64 0 ≠ Id.U64 last by
            intro hc; injection hc with hc2; exact hk hc2.symm)]
        exact h0
      · exact ⟨h0, hl⟩

theorem mint_with_attributes_raw_lockInv (c : AccountId)
    (pairs : List (String × String)) (s : Psp34Nft) (h : LockInv s) :
    LockInv ((Psp34Nft.mint_with_attributes_raw c pairs s).2) := by
  obtain ⟨h0, hl⟩ := h
  constructor
  · simp only [Psp34Nft.mint_with_attributes_raw]
    cases hco : s.ownable.check_owner (some c) with
    | error e => exact h0
    | ok u =>
      simp only
      cases hca : checkedAdd U64MAX s.manager_psp34_standard.last_token_id 1 with
      | none => exact h0
      | some last =>
        simp only
        have hk : last ≠ 0 := by
          unfold checkedAdd at hca
          split at hca
          · cases hca; omega
          · cases hca
        split
        · rename_i d hmint
          have hd : d.owners.get (Id.U64 0) = none := by
            rw [PSP34Data.mint_ok_owners _ _ _ _ hmint,
              AMap.get_insert_ne _ _ _ _ (show Id.U64 0 ≠ Id.U64 last by
                intro hc; injection hc with hc2; exact hk hc2.symm)]
            exact h0
          split
          · rename_i s3 heq
            have h2 := congrArg (fun p => p.2.data) heq
            dsimp only at h2
            rw [Psp34Nft.set_multiple_attributes_raw_data] at h2
            rw [← h2]
            exact hd
          · rename_i s3 heq
            have h2 := congrArg (fun p => p.2.data) heq
            dsimp only at h2
            rw [Psp34Nft.set_multiple_attributes_raw_data] at h2
            rw [← h2]
            exact hd
        · exact h0
  · have h2 := Psp34Nft.mint_with_attributes_raw_locked c pairs s
    rw [h2]
    exact hl

theorem burn_raw_lockInv (c a : AccountId) (id : Id) (s : Psp34Nft) (h : LockInv s) :
    LockInv ((Psp34Nft.burn_raw c a id s).2) := by
  obtain ⟨h0, hl⟩ := h
  simp only [Psp34Nft.burn_raw]
  repeat' split
  all_goals try exact ⟨h0, hl⟩
  · rename_i d hburn
    refine ⟨?_, ?_⟩
    · rw [PSP34Data.burn_ok_owners _ _ _ _ _ hburn]
      exact AMap.get_remove_none _ _ _ h0
    · exact AMap.get_remove_none _ _ _ hl
  · exact ⟨h0, AMap.get_remove_none _ _ _ hl⟩
  · exact ⟨h0, AMap.get_remove_none _ _ _ hl⟩

theorem transfer_raw_lockInv (c dest : AccountId) (id : Id) (payload : List Nat)
    (s : Psp34Nft) (h : LockInv s) : LockInv ((Psp34Nft.transfer_raw c dest id payload s).2) := by
  obtain ⟨h0, hl⟩ := h
  simp only [Psp34Nft.transfer_raw]
  split
  · rename_i d htr
    obtain ⟨⟨owner, hown⟩, hdd⟩ := PSP34Data.transfer_ok_owners _ _ _ _ _ _ htr
    refine ⟨?_, hl⟩
    have hid : Id.U64 0 ≠ id := by
      intro hc
      rw [← hc] at hown
      rw [h0] at hown
      cases hown
    rw [hdd, AMap.get_insert_ne _ _ _ _ hid]
    exact h0
  · exact ⟨h0, hl⟩

theorem approve_raw_lockInv (c operator : AccountId) (id : Option Id) (approved : Bool)
    (s : Psp34Nft) (h : LockInv s) :
    LockInv ((Psp34Nft.approve_raw c operator id approved s).2) := by
  obtain ⟨h0, hl⟩ := h
  simp only [Psp34Nft.approve_raw]
  split
  · rename_i d hap
    refine ⟨?_, hl⟩
    rw [PSP34Data.approve_ok_owners _ _ _ _ _ _ hap]
    exact h0
  · exact ⟨h0, hl⟩

theorem set_base_uri_raw_lockInv (c : AccountId) (uri : String) (s : Psp34Nft)
    (h : LockInv s) : LockInv ((Psp34Nft.set_base_uri_raw c uri s).2) := by
  obtain ⟨h0, hl⟩ := h
  simp only [Psp34Nft.set_base_uri_raw]
  cases hco : s.ownable.check_owner (some c) with
  | error e => exact ⟨h0, hl⟩
  | ok u =>
    simp only [Manager.set_base_uri, MetadataData.set_attribute]
    exact ⟨h0, hl⟩

theorem set_multiple_attributes_raw_lockInv (c : AccountId) (token_id : Id)
    (pairs : List (String × String)) (s : Psp34Nft) (h : LockInv s) :
    LockInv ((Psp34Nft.set_multiple_attributes_raw c token_id pairs s).2) := by
  obtain ⟨h0, hl⟩ := h
  constructor
  · rw [Psp34Nft.set_multiple_attributes_raw_data]
    exact h0
  · rw [Psp34Nft.set_multiple_attributes_raw_locked]
    exact hl

theorem lock_raw_lockInv (c : AccountId) (token_id : Id) (s : Psp34Nft)
    (h : LockInv s) : LockInv ((Psp34Nft.lock_raw c token_id s).2) := by
  obtain ⟨h0, hl⟩ := h
  unfold Psp34Nft.lock_raw
  split
  · exact ⟨h0, hl⟩
  · rename_i hown
    have hown2 : s.data.owner_of token_id = some c := by
      by_contra hc
      exact hown hc
    have hid : Id.U64 0 ≠ token_id := by
      intro hc
      rw [← hc] at hown2
      unfold PSP34Data.owner_of at hown2
      rw [h0] at hown2
      cases hown2
    simp only [Manager.lock]
    cases hca : checkedAdd U64MAX s.manager_psp34_standard.locked_token_count 1 with
    | none => exact ⟨h0, hl⟩
    | some cnt =>
      simp only
      refine ⟨h0, ?_⟩
      rw [AMap.get_insert_ne _ _ _ _ hid]
      exact hl

theorem ownership_raw_lockInv (c : AccountId) (new_owner : Option AccountId)
    (s : Psp34Nft) (h : LockInv s) :
    LockInv ((Psp34Nft.transfer_ownership_raw c new_owner s).2) ∧
    LockInv ((Psp34Nft.renounce_ownership_raw c s).2) := by
  obtain ⟨h0, hl⟩ := h
  constructor
  · simp only [Psp34Nft.transfer_ownership_raw]
    cases hco : s.ownable.check_owner (some c) with
    | error e => exact ⟨h0, hl⟩
    | ok u => exact ⟨h0, hl⟩
  · simp only [Psp34Nft.renounce_ownership_raw]
    cases hco : s.ownable.check_owner (some c) with
    | error e => exact ⟨h0, hl⟩
    | ok u => exact ⟨h0, hl⟩

theorem lockInv_step (op : Op) (s : Psp34Nft) (h : LockInv s) : LockInv (step op s) := by
  cases op with
  | mint c =>
    rcases msg_snd_eq_or (Psp34Nft.mint_raw c) s with he | he <;> simp only [step] <;> rw [he]
    · exact h
    · exact mint_raw_lockInv c s h
  | mintWithAttributes c pairs =>
    rcases msg_snd_eq_or (Psp34Nft.mint_with_attributes_raw c pairs) s with he | he <;>
      simp only [step] <;> rw [he]
    · exact h
    · exact mint_with_attributes_raw_lockInv c pairs s h
  | transfer c dest id payload =>
    rcases msg_snd_eq_or (Psp34Nft.transfer_raw c dest id payload) s with he | he <;>
      simp only [step] <;> rw [he]
    · exact h
    · exact transfer_raw_lockInv c dest id payload s h
  | approve c operator id approved =>
    rcases msg_snd_eq_or (Psp34Nft.approve_raw c operator id approved) s with he | he <;>
      simp only [step] <;> rw [he]
    · exact h
    · exact approve_raw_lockInv c operator id approved s h
  | burn c a id =>
    rcases msg_snd_eq_or (Psp34Nft.burn_raw c a id) s with he | he <;>
      simp only [step] <;> rw [he]
    · exact h
    · exact burn_raw_lockInv c a id s h
  | setBaseUri c uri =>
    rcases msg_snd_eq_or (Psp34Nft.set_base_uri_raw c uri) s with he | he <;>
      simp only [step] <;> rw [he]
    · exact h
    · exact set_base_uri_raw_lockInv c uri s h
  | setMultipleAttributes c id pairs =>
    rcases msg_snd_eq_or (Psp34Nft.set_multiple_attributes_raw c id pairs) s with he | he <;>
      simp only [step] <;> rw [he]
    · exact h
    · exact set_multiple_attributes_raw_lockInv c id pairs s h
  | lock c id =>
    rcases msg_snd_eq_or (Psp34Nft.lock_raw c id) s with he | he <;>
      simp only [step] <;> rw [he]
    · exact h
    · exact lock_raw_lockInv c id s h
  | transferOwnership c new_owner =>
    rcases msg_snd_eq_or (Psp34Nft.transfer_ownership_raw c new_owner) s with he | he <;>
      simp only [step] <;> rw [he]
    · exact h
    · exact (ownership_raw_lockInv c new_owner s h).1
  | renounceOwnership c =>
    rcases msg_snd_eq_or (Psp34Nft.renounce_ownership_raw c) s with he | he <;>
      simp only [step] <;> rw [he]
    · exact h
    · exact (ownership_raw_lockInv c none s h).2

theorem lockInv_of_reachable (s : Psp34Nft) (h : Reachable s) : LockInv s := by
  induction h with
  | init contract_owner name symbol => exact lockInv_init contract_owner name symbol
  | next hr op ih => exact lockInv_step op _ ih

theorem Psp34Nft.transfer_raw_manager (c dest : AccountId) (id : Id) (payload : List Nat)
    (s : Psp34Nft) :
    ((Psp34Nft.transfer_raw c dest id payload s).2).manager_psp34_standard
      = s.manager_psp34_standard := by
  simp only [Psp34Nft.transfer_raw]
  split <;> rfl

theorem Psp34Nft.approve_raw_manager (c operator : AccountId) (id : Option Id)
    (approved : Bool) (s : Psp34Nft) :
    ((Psp34Nft.approve_raw c operator id approved s).2).manager_psp34_standard
      = s.manager_psp34_standard := by
  simp only [Psp34Nft.approve_raw]
  split <;> rfl

theorem Psp34Nft.set_base_uri_raw_locked (c : AccountId) (uri : String) (s : Psp34Nft) :
    ((Psp34Nft.set_base_uri_raw c uri s).2).manager_psp34_standard.locked_tokens
      = s.manager_psp34_standard.locked_tokens := by
  simp only [Psp34Nft.set_base_uri_raw]
  cases hco : s.ownable.check_owner (some c) with
  | error e => rfl
  | ok u => simp only [Manager.set_base_uri, MetadataData.set_attribute]

theorem Psp34Nft.transfer_ownership_raw_manager (c : AccountId)
    (new_owner : Option AccountId) (s : Psp34Nft) :
    ((Psp34Nft.transfer_ownership_raw c new_owner s).2).manager_psp34_standard
      = s.manager_psp34_standard := by
  simp only [Psp34Nft.transfer_ownership_raw]
  cases hco : s.ownable.check_owner (some c) <;> rfl

theorem Psp34Nft.renounce_ownership_raw_manager (c : AccountId) (s : Psp34Nft) :
    ((Psp34Nft.renounce_ownership_raw c s).2).manager_psp34_standard
      = s.manager_psp34_standard := by
  simp only [Psp34Nft.renounce_ownership_raw]
  cases hco : s.ownable.check_owner (some c) <;> rfl

theorem Psp34Nft.burn_raw_locked_get_ne (c a : AccountId) (id : Id) (s : Psp34Nft)
    (id2 : Id) (hne : id2 ≠ id) :
    ((Psp34Nft.burn_raw c a id s).2).manager_psp34_standard.locked_tokens.get id2
      = s.manager_psp34_standard.locked_tokens.get id2 := by
  simp only [Psp34Nft.burn_raw]
  repeat' split
  all_goals try rfl
  all_goals exact AMap.get_remove_ne _ _ _ hne

theorem Psp34Nft.lock_raw_locked_isSome (c : AccountId) (token_id : Id) (s : Psp34Nft)
    (id : Id)
    (h : (s.manager_psp34_standard.locked_tokens.get id).isSome = true) :
    (((Psp34Nft.lock_raw c token_id s).2).manager_psp34_standard.locked_tokens.get id).isSome
      = true := by
  unfold Psp34Nft.lock_raw
  split
  · exact h
  · simp only [Manager.lock]
    cases hca : checkedAdd U64MAX s.manager_psp34_standard.locked_token_count 1 with
    | none => exact h
    | some cnt =>
      simp only
      by_cases hid : id = token_id
      · subst hid
        rw [AMap.get_insert_self]
        rfl
      · rw [AMap.get_insert_ne _ _ _ _ hid]
        exact h

/-- C5: on every reachable state, once a token is locked (its lock flag
is set, as reported by `is_locked_nft`), every `set_multiple_attributes`
call on it fails with the `Custom("Token is locked")` error, and every
external call other than a successful `burn` of that very token leaves
the lock flag set — so the failure persists in all later states until the
token is burned. -/
theorem c5_lock_immutable (s : Psp34Nft) (hs : Reachable s) (id : Id)
    (hlocked : s.manager_psp34_standard.is_locked_nft id = true) :
    (∀ pairs : List (String × String),
      (s.manager_psp34_standard.set_multiple_attributes id pairs).1
        = .error (Error.Custom "Token is locked")) ∧
    (∀ op : Op, (step op s).manager_psp34_standard.is_locked_nft id = true ∨
      ∃ c a, op = Op.burn c a id ∧ (msg (Psp34Nft.burn_raw c a id) s).1 = .ok ()) := by
  have hinv := lockInv_of_reachable s hs
  have hne : id ≠ Id.U64 0 := by
    intro hc
    subst hc
    unfold Manager.is_locked_nft at hlocked
    rw [hinv.2] at hlocked
    cases hlocked
  constructor
  · intro pairs
    unfold Manager.set_multiple_attributes
    rw [if_neg hne, if_pos hlocked]
  · intro op
    cases op with
    | burn c a id2 =>
      by_cases hid : id2 = id
      · subst hid
        cases hres : (msg (Psp34Nft.burn_raw c a id2) s).1 with
        | ok u => right; exact ⟨c, a, rfl, by cases u; exact hres⟩
        | error e =>
          left
          have hstep : step (Op.burn c a id2) s = s := by
            simp only [step]
            exact msg_error_state_unchanged _ _ _ hres
          rw [hstep]
          exact hlocked
      · left
        simp only [step]
        rcases msg_snd_eq_or (Psp34Nft.burn_raw c a id2) s with he | he <;> rw [he]
        · exact hlocked
        · unfold Manager.is_locked_nft at hlocked ⊢
          rw [Psp34Nft.burn_raw_locked_get_ne c a id2 s id (fun hc => hid hc.symm)]
          exact hlocked
    | mint c =>
      left
      simp only [step]
      rcases msg_snd_eq_or (Psp34Nft.mint_raw c) s with he | he <;> rw [he]
      · exact hlocked
      · unfold Manager.is_locked_nft at hlocked ⊢
        rw [Psp34Nft.mint_raw_locked]
        exact hlocked
    | mintWithAttributes c pairs =>
      left
      simp only [step]
      rcases msg_snd_eq_or (Psp34Nft.mint_with_attributes_raw c pairs) s with he | he <;>
        rw [he]
      · exact hlocked
      · unfold Manager.is_locked_nft at hlocked ⊢
        rw [Psp34Nft.mint_with_attributes_raw_locked]
        exact hlocked
    | transfer c dest id2 payload =>
      left
      simp only [step]
      rcases msg_snd_eq_or (Psp34Nft.transfer_raw c dest id2 payload) s with he | he <;>
        rw [he]
      · exact hlocked
      · unfold Manager.is_locked_nft at hlocked ⊢
        rw [Psp34Nft.transfer_raw_manager]
        exact hlocked
    | approve c operator id2 approved =>
      left
      simp only [step]
      rcases msg_snd_eq_or (Psp34Nft.approve_raw c operator id2 approved) s with he | he <;>
        rw [he]
      · exact hlocked
      · unfold Manager.is_locked_nft at hlocked ⊢
        rw [Psp34Nft.approve_raw_manager]
        exact hlocked
    | setBaseUri c uri =>
      left
      simp only [step]
      rcases msg_snd_eq_or (Psp34Nft.set_base_uri_raw c uri) s with he | he <;> rw [he]
      · exact hlocked
      · unfold Manager.is_locked_nft at hlocked ⊢
        rw [Psp34Nft.set_base_uri_raw_locked]
        exact hlocked
    | setMultipleAttributes c id2 pairs =>
      left
      simp only [step]
      rcases msg_snd_eq_or (Psp34Nft.set_multiple_attributes_raw c id2 pairs) s with he | he <;>
        rw [he]
      · exact hlocked
      · unfold Manager.is_locked_nft at hlocked ⊢
        rw [Psp34Nft.set_multiple_attributes_raw_locked]
        exact hlocked
    | lock c id2 =>
      left
      simp only [step]
      rcases msg_snd_eq_or (Psp34Nft.lock_raw c id2) s with he | he <;> rw [he]
      · exact hlocked
      · unfold Manager.is_locked_nft at hlocked ⊢
        exact Psp34Nft.lock_raw_locked_isSome c id2 s id hlocked
    | transferOwnership c new_owner =>
      left
      simp only [step]
      rcases msg_snd_eq_or (Psp34Nft.transfer_ownership_raw c new_owner) s with he | he <;>
        rw [he]
      · exact hlocked
      · unfold Manager.is_locked_nft at hlocked ⊢
        rw [Psp34Nft.transfer_ownership_raw_manager]
        exact hlocked
    | renounceOwnership c =>
      left
      simp only [step]
      rcases msg_snd_eq_or (Psp34Nft.renounce_ownership_raw c) s with he | he <;> rw [he]
      · exact hlocked
      · unfold Manager.is_locked_nft at hlocked ⊢
        rw [Psp34Nft.renounce_ownership_raw_manager]
        exact hlocked

/-- C5 (witness): in the reachable state where token `Id::U64(1)` was
minted and locked by its owner, `set_multiple_attributes` on it fails
with `Custom("Token is locked")`. -/
theorem c5_lock_immutable_witness :
    ((step (Op.lock 0 (Id.U64 1)) (step (Op.mint 0)
        (Psp34Nft.new 0 "n" "s"))).manager_psp34_standard.set_multiple_attributes
      (Id.U64 1) [("color", "red")]).1 = .error (Error.Custom "Token is locked") :=
  (c5_lock_immutable
      (step (Op.lock 0 (Id.U64 1)) (step (Op.mint 0) (Psp34Nft.new 0 "n" "s")))
      (Reachable.next (Reachable.next (Reachable.init 0 "n" "s") (Op.mint 0))
        (Op.lock 0 (Id.U64 1)))
      (Id.U64 1) (by decide)).1 [("color", "red")]

/-- The attribute names a call interns, in order: a successful
`set_multiple_attributes` (also inside `mint_with_attributes`) interns
exactly the names of its pair list in order (each must be fresh, or the
whole call fails and, after dispatch revert, interns nothing). This is
the "order of first use" ghost for C10. -/
def opNewNames (op : Op) (s : Psp34Nft) : List String :=
  match op with
  | .mintWithAttributes c pairs =>
    match (msg (Psp34Nft.mint_with_attributes_raw c pairs) s).1 with
    | .ok _ => pairs.map Prod.fst
    | .error _ => []
  | .setMultipleAttributes c id pairs =>
    match (msg (Psp34Nft.set_multiple_attributes_raw c id pairs) s).1 with
    | .ok _ => pairs.map Prod.fst
    | .error _ => []
  | _ => []

/-- Reachable contract states together with the list of distinct
attribute names interned so far, in order of first use. -/
inductive ReachableNames : Psp34Nft → List String → Prop
  | init (contract_owner : AccountId) (name symbol : String) :
      ReachableNames (Psp34Nft.new contract_owner name symbol) []
  | next {s : Psp34Nft} {L : List String} (h : ReachableNames s L) (op : Op) :
      ReachableNames (step op s) (L ++ opNewNames op s)

/-- The interning-table invariant: the count equals the number of
interned names, the names are distinct, slot 0 is empty, slot `i + 1`
holds the UTF-8 bytes of the `i`-th interned name, and the name-seen set
contains exactly the interned names. -/
def TableInv (m : Manager) (L : List String) : Prop :=
  m.attribute_count = L.length ∧
  L.Nodup ∧
  m.attribute_names.get 0 = none ∧
  (∀ i : Nat, m.attribute_names.get (i + 1) = (L.get? i).map strToBytes) ∧
  (∀ name : String, (m.is_attribute.get name).isSome = true ↔ name ∈ L)

theorem tableInv_of_attr_eq (m m' : Manager) (L : List String)
    (h1 : m'.attribute_count = m.attribute_count)
    (h2 : m'.attribute_names = m.attribute_names)
    (h3 : m'.is_attribute = m.is_attribute)
    (hinv : TableInv m L) : TableInv m' L := by
  unfold TableInv at hinv ⊢
  rw [h1, h2, h3]
  exact hinv

theorem tableInv_init (contract_owner : AccountId) (name symbol : String) :
    TableInv (Psp34Nft.new contract_owner name symbol).manager_psp34_standard [] := by
  refine ⟨rfl, List.nodup_nil, rfl, ?_, ?_⟩
  · intro i; rfl
  · intro nm
    constructor
    · intro hc; cases hc
    · intro hc; cases hc

theorem add_attribute_name_tableInv (m : Manager) (a : String) (u : Unit) (m1 : Manager)
    (L : List String) (hinv : TableInv m L)
    (h : m.add_attribute_name (strToBytes a) = (.ok u, m1)) :
    TableInv m1 (L ++ [a]) := by
  obtain ⟨hc, hnd, h0, hi, hmem⟩ := hinv
  unfold Manager.add_attribute_name at h
  rw [utf8Decode?_strToBytes] at h
  dsimp only at h
  split at h
  · rename_i hfresh
    have hnotmem : a ∉ L := by
      intro hmem2
      rw [← hmem a] at hmem2
      simp only [Bool.not_eq_true'] at hfresh
      rw [hfresh] at hmem2
      cases hmem2
    split at h
    · rename_i cnt hca
      have hcnt : cnt = m.attribute_count + 1 := by
        unfold checkedAdd at hca
        split at hca
        · cases hca; rfl
        · cases hca
      cases h
      refine ⟨?_, ?_, ?_, ?_, ?_⟩
      · simp only [hcnt, hc, List.length_append, List.length_singleton]
      · simp [List.nodup_append, hnd, hnotmem]
      · rw [AMap.get_insert_ne _ _ _ _ (by omega : (0 : Nat) ≠ cnt)]
        exact h0
      · intro i
        by_cases hcase : i = L.length
        · rw [show i + 1 = cnt by omega]
          rw [AMap.get_insert_self, hcase, List.get?_concat_length]
          rfl
        · rw [AMap.get_insert_ne _ _ _ _ (by omega : i + 1 ≠ cnt), hi i]
          by_cases hlt : i < L.length
          · rw [List.get?_append hlt]
          · rw [List.get?_eq_none.2 (by omega),
              List.get?_eq_none.2 (show (L ++ [a]).length ≤ i by
                rw [List.length_append, List.length_singleton]; omega)]
      · intro name
        by_cases hna : name = a
        · subst hna
          rw [AMap.get_insert_self]
          simp
        · rw [AMap.get_insert_ne _ _ _ _ hna, hmem name]
          simp [hna]
    · cases h
  · cases h

theorem set_attributes_loop_tableInv (token_id : Id) :
    ∀ (pairs : List (String × String)) (m : Manager) (L : List String) (u : Unit)
      (m1 : Manager), TableInv m L →
      m.set_attributes_loop token_id pairs = (.ok u, m1) →
      TableInv m1 (L ++ pairs.map Prod.fst) := by
  intro pairs
  induction pairs with
  | nil =>
    intro m L u m1 hinv h
    cases h
    simpa using hinv
  | cons p rest ih =>
    intro m L u m1 hinv h
    obtain ⟨attr, value⟩ := p
    unfold Manager.set_attributes_loop at h
    cases hadd : m.add_attribute_name (strToBytes attr) with
    | mk r1 m2 =>
      rw [hadd] at h
      cases r1 with
      | error e => cases h
      | ok u2 =>
        simp only [MetadataData.set_attribute] at h
        have hm2 : TableInv m2 (L ++ [attr]) :=
          add_attribute_name_tableInv m attr u2 m2 L hinv hadd
        have hm3 : TableInv { m2 with metadata :=
            ⟨m2.metadata.attributes.insert (token_id, strToBytes attr) (strToBytes value)⟩ }
            (L ++ [attr]) := hm2
        have := ih _ _ _ _ hm3 h
        rw [List.append_assoc] at this
        simpa using this

theorem set_multiple_attributes_tableInv (m : Manager) (token_id : Id)
    (pairs : List (String × String)) (L : List String) (u : Unit) (m1 : Manager)
    (hinv : TableInv m L) (h : m.set_multiple_attributes token_id pairs = (.ok u, m1)) :
    TableInv m1 (L ++ pairs.map Prod.fst) := by
  unfold Manager.set_multiple_attributes at h
  split at h
  · cases h
  · split at h
    · cases h
    · exact set_attributes_loop_tableInv token_id pairs m L u m1 hinv h

theorem msg_ok (f : Psp34Nft → Except ε Unit × Psp34Nft) (s : Psp34Nft) (u : Unit)
    (h : (msg f s).1 = .ok u) : f s = (.ok u, (msg f s).2) := by
  unfold msg at h ⊢
  cases hf : f s with
  | mk r s1 =>
    rw [hf] at h
    cases r with
    | ok u0 =>
      cases h
      rfl
    | error e => cases h

theorem set_multiple_attributes_raw_ok (c : AccountId) (token_id : Id)
    (pairs : List (String × String)) (s : Psp34Nft) (u : Unit) (s1 : Psp34Nft)
    (h : Psp34Nft.set_multiple_attributes_raw c token_id pairs s = (.ok u, s1)) :
    ∃ u2, s.manager_psp34_standard.set_multiple_attributes token_id pairs
        = (.ok u2, s1.manager_psp34_standard) := by
  unfold Psp34Nft.set_multiple_attributes_raw at h
  cases hco : s.ownable.check_owner (some c) with
  | error e =>
    rw [hco] at h
    cases h
  | ok u0 =>
    rw [hco] at h
    simp only at h
    cases hsm : s.manager_psp34_standard.set_multiple_attributes token_id pairs with
    | mk r m =>
      rw [hsm] at h
      cases r with
      | error e => cases h
      | ok u2 =>
        cases h
        exact ⟨u2, rfl⟩

theorem Psp34Nft.mint_raw_attr (c : AccountId) (s : Psp34Nft) :
    ((Psp34Nft.mint_raw c s).2).manager_psp34_standard.attribute_count
        = s.manager_psp34_standard.attribute_count ∧
    ((Psp34Nft.mint_raw c s).2).manager_psp34_standard.attribute_names
        = s.manager_psp34_standard.attribute_names ∧
    ((Psp34Nft.mint_raw c s).2).manager_psp34_standard.is_attribute
        = s.manager_psp34_standard.is_attribute := by
  simp only [Psp34Nft.mint_raw]
  repeat' split
  all_goals exact ⟨rfl, rfl, rfl⟩

theorem Psp34Nft.burn_raw_attr (c a : AccountId) (id : Id) (s : Psp34Nft) :
    ((Psp34Nft.burn_raw c a id s).2).manager_psp34_standard.attribute_count
        = s.manager_psp34_standard.attribute_count ∧
    ((Psp34Nft.burn_raw c a id s).2).manager_psp34_standard.attribute_names
        = s.manager_psp34_standard.attribute_names ∧
    ((Psp34Nft.burn_raw c a id s).2).manager_psp34_standard.is_attribute
        = s.manager_psp34_standard.is_attribute := by
  simp only [Psp34Nft.burn_raw]
  repeat' split
  all_goals exact ⟨rfl, rfl, rfl⟩

theorem Psp34Nft.lock_raw_attr (c : AccountId) (token_id : Id) (s : Psp34Nft) :
    ((Psp34Nft.lock_raw c token_id s).2).manager_psp34_standard.attribute_count
        = s.manager_psp34_standard.attribute_count ∧
    ((Psp34Nft.lock_raw c token_id s).2).manager_psp34_standard.attribute_names
        = s.manager_psp34_standard.attribute_names ∧
    ((Psp34Nft.lock_raw c token_id s).2).manager_psp34_standard.is_attribute
        = s.manager_psp34_standard.is_attribute := by
  unfold Psp34Nft.lock_raw
  split
  · exact ⟨rfl, rfl, rfl⟩
  · simp only [Manager.lock]
    cases hca : checkedAdd U64MAX s.manager_psp34_standard.locked_token_count 1 with
    | none => exact ⟨rfl, rfl, rfl⟩
    | some cnt => exact ⟨rfl, rfl, rfl⟩

theorem Psp34Nft.set_base_uri_raw_attr (c : AccountId) (uri : String) (s : Psp34Nft) :
    ((Psp34Nft.set_base_uri_raw c uri s).2).manager_psp34_standard.attribute_count
        = s.manager_psp34_standard.attribute_count ∧
    ((Psp34Nft.set_base_uri_raw c uri s).2).manager_psp34_standard.attribute_names
        = s.manager_psp34_standard.attribute_names ∧
    ((Psp34Nft.set_base_uri_raw c uri s).2).manager_psp34_standard.is_attribute
        = s.manager_psp34_standard.is_attribute := by
  simp only [Psp34Nft.set_base_uri_raw]
  cases hco : s.ownable.check_owner (some c) with
  | error e => exact ⟨rfl, rfl, rfl⟩
  | ok u => simp [Manager.set_base_uri, MetadataData.set_attribute]

theorem reachableNames_tableInv (s : Psp34Nft) (L : List String)
    (h : ReachableNames s L) : TableInv s.manager_psp34_standard L := by
  induction h with
  | init contract_owner name symbol => exact tableInv_init contract_owner name symbol
  | next hr op ih =>
    rename_i s L
    cases op with
    | mintWithAttributes c pairs =>
      simp only [opNewNames]
      cases hres : (msg (Psp34Nft.mint_with_attributes_raw c pairs) s).1 with
      | error e =>
        have hstep : step (Op.mintWithAttributes c pairs) s = s := by
          simp only [step]
          exact msg_error_state_unchanged _ _ _ hres
        rw [hstep, List.append_nil]
        exact ih
      | ok u =>
        simp only [step]
        have hraw := msg_ok _ _ _ hres
        set S := (msg (Psp34Nft.mint_with_attributes_raw c pairs) s).2 with hS
        unfold Psp34Nft.mint_with_attributes_raw at hraw
        cases hco : s.ownable.check_owner (some c) with
        | error e =>
          rw [hco] at hraw
          injection hraw with h1 h2
          cases h1
        | ok u0 =>
          rw [hco] at hraw
          simp only at hraw
          cases hca : checkedAdd U64MAX s.manager_psp34_standard.last_token_id 1 with
          | none =>
            rw [hca] at hraw
            injection hraw with h1 h2
            cases h1
          | some last =>
            rw [hca] at hraw
            simp only at hraw
            split at hraw
            · rename_i d hmint
              split at hraw
              · rename_i u2 s3 heq
                injection hraw with h1 h2
                rw [← h2]
                obtain ⟨u3, hm⟩ := set_multiple_attributes_raw_ok _ _ _ _ _ _ heq
                have hinv2 : TableInv
                    ({ data := d, ownable := s.ownable, manager_psp34_standard :=
                      { s.manager_psp34_standard with last_token_id := last } }
                        : Psp34Nft).manager_psp34_standard L :=
                  tableInv_of_attr_eq _ _ _ rfl rfl rfl ih
                exact set_multiple_attributes_tableInv _ _ _ _ _ _ hinv2 hm
              · rename_i e s3 heq
                injection hraw with h1 h2
                cases h1
            · rename_i e hmint
              injection hraw with h1 h2
              cases h1
    | setMultipleAttributes c id pairs =>
      simp only [opNewNames]
      cases hres : (msg (Psp34Nft.set_multiple_attributes_raw c id pairs) s).1 with
      | error e =>
        have hstep : step (Op.setMultipleAttributes c id pairs) s = s := by
          simp only [step]
          exact msg_error_state_unchanged _ _ _ hres
        rw [hstep, List.append_nil]
        exact ih
      | ok u =>
        have hraw := msg_ok _ _ _ hres
        simp only [step]
        obtain ⟨u2, hm⟩ := set_multiple_attributes_raw_ok _ _ _ _ _ _ hraw
        exact set_multiple_attributes_tableInv _ _ _ _ _ _ ih hm
    | mint c =>
      simp only [opNewNames, List.append_nil, step]
      rcases msg_snd_eq_or (Psp34Nft.mint_raw c) s with he | he <;> rw [he]
      · exact ih
      · obtain ⟨h1, h2, h3⟩ := Psp34Nft.mint_raw_attr c s
        exact tableInv_of_attr_eq _ _ _ h1 h2 h3 ih
    | burn c a id =>
      simp only [opNewNames, List.append_nil, step]
      rcases msg_snd_eq_or (Psp34Nft.burn_raw c a id) s with he | he <;> rw [he]
      · exact ih
      · obtain ⟨h1, h2, h3⟩ := Psp34Nft.burn_raw_attr c a id s
        exact tableInv_of_attr_eq _ _ _ h1 h2 h3 ih
    | lock c id =>
      simp only [opNewNames, List.append_nil, step]
      rcases msg_snd_eq_or (Psp34Nft.lock_raw c id) s with he | he <;> rw [he]
      · exact ih
      · obtain ⟨h1, h2, h3⟩ := Psp34Nft.lock_raw_attr c id s
        exact tableInv_of_attr_eq _ _ _ h1 h2 h3 ih
    | setBaseUri c uri =>
      simp only [opNewNames, List.append_nil, step]
      rcases msg_snd_eq_or (Psp34Nft.set_base_uri_raw c uri) s with he | he <;> rw [he]
      · exact ih
      · obtain ⟨h1, h2, h3⟩ := Psp34Nft.set_base_uri_raw_attr c uri s
        exact tableInv_of_attr_eq _ _ _ h1 h2 h3 ih
    | transfer c dest id payload =>
      simp only [opNewNames, List.append_nil, step]
      rcases msg_snd_eq_or (Psp34Nft.transfer_raw c dest id payload) s with he | he <;>
        rw [he]
      · exact ih
      · rw [Psp34Nft.transfer_raw_manager]
        exact ih
    | approve c operator id approved =>
      simp only [opNewNames, List.append_nil, step]
      rcases msg_snd_eq_or (Psp34Nft.approve_raw c operator id approved) s with he | he <;>
        rw [he]
      · exact ih
      · rw [Psp34Nft.approve_raw_manager]
        exact ih
    | transferOwnership c new_owner =>
      simp only [opNewNames, List.append_nil, step]
      rcases msg_snd_eq_or (Psp34Nft.transfer_ownership_raw c new_owner) s with he | he <;>
        rw [he]
      · exact ih
      · rw [Psp34Nft.transfer_ownership_raw_manager]
        exact ih
    | renounceOwnership c =>
      simp only [opNewNames, List.append_nil, step]
      rcases msg_snd_eq_or (Psp34Nft.renounce_ownership_raw c) s with he | he <;> rw [he]
      · exact ih
      · rw [Psp34Nft.renounce_ownership_raw_manager]
        exact ih

/-- C10: the attribute-name table is 1-indexed at the public interface.
For every reachable state whose interning history (in order of first
use) is `L`: `get_attribute_count()` equals the number `n` of distinct
interned names, `get_attribute_name(0)` is the empty string,
`get_attribute_name(i + 1)` returns the `(i + 1)`-th distinct name in
order of first use for `i < n`, and every index greater than `n` returns
the empty string. -/
theorem c10_attribute_name_table (s : Psp34Nft) (L : List String)
    (h : ReachableNames s L) :
    s.manager_psp34_standard.get_attribute_count = L.length ∧
    L.Nodup ∧
    s.manager_psp34_standard.get_attribute_name 0 = "" ∧
    (∀ (i : Nat) (name : String), L.get? i = some name →
      s.manager_psp34_standard.get_attribute_name (i + 1) = name) ∧
    (∀ j : Nat, L.length < j → s.manager_psp34_standard.get_attribute_name j = "") := by
  obtain ⟨hc, hnd, h0, hi, hmem⟩ := reachableNames_tableInv s L h
  refine ⟨hc, hnd, ?_, ?_, ?_⟩
  · unfold Manager.get_attribute_name
    rw [h0]
  · intro i name hname
    unfold Manager.get_attribute_name
    rw [hi i, hname]
    simp only [Option.map_some']
    rw [utf8Decode?_strToBytes]
  · intro j hj
    cases j with
    | zero => omega
    | succ i =>
      unfold Manager.get_attribute_name
      rw [hi i, List.get?_eq_none.2 (by omega)]
      rfl

/-- C10 (witness): after one successful `set_multiple_attributes` call
interning `"color"` then `"size"` on a fresh contract, index 0 is empty,
indices 1 and 2 return the two names in order of first use, the count is
2, and index 3 is empty. -/
theorem c10_attribute_name_table_witness :
    (step (Op.setMultipleAttributes 5 (Id.U64 1) [("color", "red"), ("size", "big")])
        (Psp34Nft.new 5 "n" "s")).manager_psp34_standard.get_attribute_count = 2 ∧
    (step (Op.setMultipleAttributes 5 (Id.U64 1) [("color", "red"), ("size", "big")])
        (Psp34Nft.new 5 "n" "s")).manager_psp34_standard.get_attribute_name 0 = "" ∧
    (step (Op.setMultipleAttributes 5 (Id.U64 1) [("color", "red"), ("size", "big")])
        (Psp34Nft.new 5 "n" "s")).manager_psp34_standard.get_attribute_name 1 = "color" ∧
    (step (Op.setMultipleAttributes 5 (Id.U64 1) [("color", "red"), ("size", "big")])
        (Psp34Nft.new 5 "n" "s")).manager_psp34_standard.get_attribute_name 2 = "size" ∧
    (step (Op.setMultipleAttributes 5 (Id.U64 1) [("color", "red"), ("size", "big")])
        (Psp34Nft.new 5 "n" "s")).manager_psp34_standard.get_attribute_name 3 = "" := by
  have h := c10_attribute_name_table _ _
    (ReachableNames.next (ReachableNames.init 5 "n" "s")
      (Op.setMultipleAttributes 5 (Id.U64 1) [("color", "red"), ("size", "big")]))
  refine ⟨?_, h.2.2.1, ?_, ?_, ?_⟩
  · rw [h.1]; decide
  · exact h.2.2.2.1 0 "color" (by decide)
  · exact h.2.2.2.1 1 "size" (by decide)
  · exact h.2.2.2.2 3 (by decide)

/-- The reachable state used to exhibit the lock-counter defect: mint
token `Id::U64(1)` to the contract owner, then lock it twice. -/
def lockTwiceState : Psp34Nft :=
  step (Op.lock 0 (Id.U64 1)) (step (Op.lock 0 (Id.U64 1))
    (step (Op.mint 0) (Psp34Nft.new 0 "n" "s")))

/-- C1 (failing input): in the reachable state obtained by minting token
`Id::U64(1)` and locking it twice (both locks succeed, since the caller
still owns the token), `get_locked_token_count()` is 2 while exactly one
Identifier — `Id::U64(1)` — has a true lock flag: the claimed invariant
is broken because `Manager::lock` increments the counter
unconditionally. -/
theorem c1_lock_counter_invariant_broken :
    Reachable lockTwiceState ∧
    lockTwiceState.manager_psp34_standard.get_locked_token_count = 2 ∧
    (∀ id : Id,
      lockTwiceState.manager_psp34_standard.is_locked_nft id = true ↔ id = Id.U64 1) := by
  refine ⟨?_, by decide, ?_⟩
  · exact Reachable.next (Reachable.next (Reachable.next
      (Reachable.init 0 "n" "s") (Op.mint 0)) (Op.lock 0 (Id.U64 1)))
      (Op.lock 0 (Id.U64 1))
  · intro id
    have hlt : lockTwiceState.manager_psp34_standard.locked_tokens
        = [(Id.U64 1, true)] := by decide
    unfold Manager.is_locked_nft
    rw [hlt]
    exact AMap.get_singleton_isSome (Id.U64 1) id true

/-- The reachable state used to exhibit the burn defect with a locked
sibling token: mint `Id::U64(1)` and `Id::U64(2)`, lock `Id::U64(1)`. -/
def c2SetupState : Psp34Nft :=
  step (Op.lock 0 (Id.U64 1)) (step (Op.mint 0)
    (step (Op.mint 0) (Psp34Nft.new 0 "n" "s")))

/-- C2 (failing input): burning an unlocked token does not behave as
claimed. (a) In the reachable state with exactly one (unlocked, owned)
token and lock counter 0, `burn` by the owner fails with
`Custom("Locked token count error")` instead of succeeding, because the
source unconditionally `checked_sub`s the lock counter. (b) In a
reachable state where a *different* token is locked (counter 1), burning
the unlocked token succeeds but wrongly decrements the counter to 0
while the locked token keeps its flag. -/
theorem c2_burn_unlocked_defect :
    (Reachable (step (Op.mint 0) (Psp34Nft.new 0 "n" "s")) ∧
     (step (Op.mint 0) (Psp34Nft.new 0 "n" "s")).data.owner_of (Id.U64 1) = some 0 ∧
     (step (Op.mint 0) (Psp34Nft.new 0 "n" "s")).manager_psp34_standard.is_locked_nft
        (Id.U64 1) = false ∧
     (msg (Psp34Nft.burn_raw 0 0 (Id.U64 1)) (step (Op.mint 0) (Psp34Nft.new 0 "n" "s"))).1
        = .error (PSP34Error.Custom "Locked token count error")) ∧
    (Reachable c2SetupState ∧
     c2SetupState.manager_psp34_standard.is_locked_nft (Id.U64 2) = false ∧
     c2SetupState.manager_psp34_standard.get_locked_token_count = 1 ∧
     (msg (Psp34Nft.burn_raw 0 0 (Id.U64 2)) c2SetupState).1 = .ok () ∧
     (step (Op.burn 0 0 (Id.U64 2)) c2SetupState).manager_psp34_standard.get_locked_token_count
        = 0 ∧
     (step (Op.burn 0 0 (Id.U64 2)) c2SetupState).manager_psp34_standard.is_locked_nft
        (Id.U64 1) = true) := by
  refine ⟨⟨Reachable.next (Reachable.init 0 "n" "s") (Op.mint 0), by decide, by decide, by decide⟩,
    ⟨?_, by decide, by decide, by decide, by decide, by decide⟩⟩
  exact Reachable.next (Reachable.next (Reachable.next
    (Reachable.init 0 "n" "s") (Op.mint 0)) (Op.mint 0)) (Op.lock 0 (Id.U64 1))

/-- C7: the contract-level `lock(token_id)`: (a) when the caller is not
the current owner it fails with `CallerIsNotOwner` and changes nothing;
(b) when the caller owns the token and the counter can grow, it succeeds,
sets the lock flag (so `is_locked_nft` is true) and increments the lock
counter by exactly one; (c) when the counter cannot grow it fails with
the overflow error and changes nothing. -/
theorem c7_lock_spec (s : Psp34Nft) (caller : AccountId) (token_id : Id) :
    (s.data.owner_of token_id ≠ some caller →
      msg (Psp34Nft.lock_raw caller token_id) s
        = (.error (Error.OwnableError .CallerIsNotOwner), s)) ∧
    (s.data.owner_of token_id = some caller →
      s.manager_psp34_standard.locked_token_count + 1 ≤ U64MAX →
      (msg (Psp34Nft.lock_raw caller token_id) s).1 = .ok () ∧
      (msg (Psp34Nft.lock_raw caller token_id) s).2.manager_psp34_standard.is_locked_nft
        token_id = true ∧
      (msg (Psp34Nft.lock_raw caller token_id) s).2.manager_psp34_standard.locked_token_count
        = s.manager_psp34_standard.locked_token_count + 1) ∧
    (s.data.owner_of token_id = some caller →
      ¬ (s.manager_psp34_standard.locked_token_count + 1 ≤ U64MAX) →
      msg (Psp34Nft.lock_raw caller token_id) s
        = (.error (Error.Custom "Cannot increase locked token count"), s)) := by
  refine ⟨?_, ?_, ?_⟩
  · intro h
    unfold msg Psp34Nft.lock_raw
    rw [if_pos h]
  · intro h hle
    have hno : ¬ (s.data.owner_of token_id ≠ some caller) := fun hc => hc h
    unfold msg Psp34Nft.lock_raw Manager.lock checkedAdd
    rw [if_neg hno, if_pos hle]
    refine ⟨rfl, ?_, rfl⟩
    simp [Manager.is_locked_nft, AMap.get_insert_self]
  · intro h hle
    have hno : ¬ (s.data.owner_of token_id ≠ some caller) := fun hc => hc h
    unfold msg Psp34Nft.lock_raw Manager.lock checkedAdd
    rw [if_neg hno, if_neg hle]

/-- C7 (witness): on the reachable state with one minted token
`Id::U64(1)` owned by account 0, locking by the non-owner account 1
fails with `CallerIsNotOwner` and changes nothing, and locking by the
owner succeeds, sets the flag and bumps the counter from 0 to 1. -/
theorem c7_lock_spec_witness :
    (msg (Psp34Nft.lock_raw 1 (Id.U64 1)) (step (Op.mint 0) (Psp34Nft.new 0 "n" "s"))
      = (.error (Error.OwnableError .CallerIsNotOwner),
          step (Op.mint 0) (Psp34Nft.new 0 "n" "s"))) ∧
    ((msg (Psp34Nft.lock_raw 0 (Id.U64 1)) (step (Op.mint 0) (Psp34Nft.new 0 "n" "s"))).1
        = .ok () ∧
      (msg (Psp34Nft.lock_raw 0 (Id.U64 1))
        (step (Op.mint 0) (Psp34Nft.new 0 "n" "s"))).2.manager_psp34_standard.is_locked_nft
          (Id.U64 1) = true ∧
      (msg (Psp34Nft.lock_raw 0 (Id.U64 1))
        (step (Op.mint 0) (Psp34Nft.new 0 "n" "s"))).2.manager_psp34_standard.locked_token_count
          = (step (Op.mint 0) (Psp34Nft.new 0 "n" "s")).manager_psp34_standard.locked_token_count
            + 1) :=
  ⟨(c7_lock_spec (step (Op.mint 0) (Psp34Nft.new 0 "n" "s")) 1 (Id.U64 1)).1 (by decide),
   (c7_lock_spec (step (Op.mint 0) (Psp34Nft.new 0 "n" "s")) 0 (Id.U64 1)).2.1
     (by decide) (by decide)⟩

/-- C6 (amended): `set_multiple_attributes(id, pairs)` fails with
`InvalidInput` exactly when `id = Id::U64(0)`; the collection
pseudo-token `Id::U8(0)` is not subject to this guard. -/
theorem c6_invalid_input_iff_u64_zero (m : Manager) (token_id : Id)
    (pairs : List (String × String)) :
    (m.set_multiple_attributes token_id pairs).1 = .error Error.InvalidInput ↔
      token_id = Id.U64 0 := by
  constructor
  · intro h
    by_contra hne
    unfold Manager.set_multiple_attributes at h
    rw [if_neg hne] at h
    split at h
    · cases h
    · exact Manager.set_attributes_loop_no_invalid token_id pairs m h
  · intro h
    unfold Manager.set_multiple_attributes
    rw [if_pos h]

end PSP34
